import Mathlib

/-!
Verification development for the LotR ALeP set-generator pipeline (lotr.py).

The file shallowly embeds the pure cores of the pipeline:

* the change-detection layer `calculate_hashes` (lotr.py:542-590), including the
  canonical serialization `re.sub(r'\n\s*', '', ET.tostring(elem).strip())` of the
  XML-like card trees;
* the stale-output pruning `_clear_modified_images` (lotr.py:137-147);
* the PDF image-pool indexer `_collect_pdf_images` (lotr.py:1025-1065) and the page
  assembly of `generate_pdf` (lotr.py:1068-1097);
* the packaging helpers `_prepare_printing_images` (lotr.py:1162-1230),
  `_deck_name` (lotr.py:1248-1255) and `_prepare_dtc_printing_archive`
  (lotr.py:1258-1279).

Filenames and strings are modelled as `List Char`; the filesystem is modelled as the
list of filenames of the directory being scanned (the Python code only ever reads the
top level of each folder: every `os.walk` loop breaks after the first iteration).
MD5 digests are modelled by their input: the code only ever compares digests for
equality, and equality of digests is equality of hash inputs (up to collisions, which
are outside the model).
-/

/-- Python ASCII whitespace, as matched by `str.strip()` and by the regex class
backslash-s on ASCII text: space, tab, newline, carriage return, vertical tab,
form feed. -/
def isWs (c : Char) : Bool :=
  c == ' ' || c == '\t' || c == '\n' || c == '\r' || c == Char.ofNat 11 || c == Char.ofNat 12

/-- A character list is entirely whitespace (vacuously true for the empty list). -/
def wsOnly (l : List Char) : Bool :=
  l.all isWs

/-- The list is empty or starts with a non-whitespace character. -/
def headOkB : List Char → Bool
  | [] => true
  | c :: _ => !(isWs c)

mutual

/-- Embedding of the substitution `re.sub(r'\n\s*', '', s)` used by
`calculate_hashes` (lotr.py:555, 560): scan the text left to right and delete every
newline together with the maximal whitespace run that follows it. -/
def stripNlWs : List Char → List Char
  | [] => []
  | c :: rest => if c == '\n' then wsDrop rest else c :: stripNlWs rest

/-- Helper of `stripNlWs`: we are inside the whitespace run that follows a matched
newline; keep dropping whitespace, then resume the scan. -/
def wsDrop : List Char → List Char
  | [] => []
  | c :: rest => if isWs c then wsDrop rest else c :: stripNlWs rest

end

/-- Embedding of Python `str.strip()`: drop whitespace from both ends. -/
def pyStrip (l : List Char) : List Char :=
  ((l.dropWhile isWs).reverse.dropWhile isWs).reverse

/-- Embedding of Python `str.split(sep)` for a single-character separator.
Like Python, splitting the empty string yields one empty field, and separators at
the ends yield empty fields. -/
def splitOnChar (sep : Char) : List Char → List (List Char)
  | [] => [[]]
  | c :: rest =>
    if c == sep then [] :: splitOnChar sep rest
    else
      match splitOnChar sep rest with
      | [] => [[c]]
      | p :: ps => (c :: p) :: ps

/-- Filenames and paths are character lists. -/
abbrev Fname := List Char

/-- Embedding of `os.path.join(dir, f)` (the concrete separator character is
irrelevant to every property proved here). -/
def joinPath (dir f : Fname) : Fname :=
  dir ++ '/' :: f

mutual

/-- An XML-like element as handled by `xml.etree.ElementTree`: tag, attributes in
document order, text (empty = absent, matching Python falsiness of `None`/`""`),
children, and tail text written after the element's closing tag.  `XList` is the
children list; a dedicated mutual type keeps all recursion structural. -/
inductive XElem : Type where
  | mk (tag : List Char) (attrs : List (List Char × List Char)) (text : List Char)
       (children : XList) (tl : List Char)

/-- A list of `XElem` (mutual companion type of `XElem`). -/
inductive XList : Type where
  | nil
  | cons (head : XElem) (rest : XList)

end

/-- Tag accessor. -/
def XElem.tagOf : XElem → List Char
  | .mk tag _ _ _ _ => tag

/-- Attribute-list accessor. -/
def XElem.attrsOf : XElem → List (List Char × List Char)
  | .mk _ attrs _ _ _ => attrs

/-- Text accessor. -/
def XElem.textOf : XElem → List Char
  | .mk _ _ text _ _ => text

/-- Children accessor. -/
def XElem.childrenOf : XElem → XList
  | .mk _ _ _ children _ => children

/-- Tail-text accessor. -/
def XElem.tailOf : XElem → List Char
  | .mk _ _ _ _ tl => tl

/-- Convert the mutual children list to an ordinary `List`. -/
def XList.toList : XList → List XElem
  | .nil => []
  | .cons c rest => c :: rest.toList

/-- Map a function over the mutual children list. -/
def XList.map (f : XElem → XElem) : XList → XList
  | .nil => .nil
  | .cons c rest => .cons (f c) (XList.map f rest)

/-- Whether the children list is empty (Python `len(elem) == 0`). -/
def XList.isNil : XList → Bool
  | .nil => true
  | .cons _ _ => false

/-- Character-level text escaping of `ElementTree._escape_cdata`. -/
def escTextChar (c : Char) : List Char :=
  if c == '&' then "&amp;".data
  else if c == '<' then "&lt;".data
  else if c == '>' then "&gt;".data
  else [c]

/-- Text escaping of `ElementTree._escape_cdata` (applied to text and tail nodes). -/
def escText (l : List Char) : List Char :=
  l.flatMap escTextChar

/-- Character-level attribute-value escaping of `ElementTree._escape_attrib`. -/
def escAttrChar (c : Char) : List Char :=
  if c == '&' then "&amp;".data
  else if c == '<' then "&lt;".data
  else if c == '>' then "&gt;".data
  else if c == '"' then "&quot;".data
  else if c == '\r' then "&#13;".data
  else if c == '\n' then "&#10;".data
  else if c == '\t' then "&#09;".data
  else [c]

/-- Attribute-value escaping of `ElementTree._escape_attrib`. -/
def escAttr (l : List Char) : List Char :=
  l.flatMap escAttrChar

/-- Serialize the attribute list the way `ElementTree` writes it: one
space-separated `key="value"` item per attribute, in document order (Python 3.8+
does not reorder attributes). -/
def serAttrs : List (List Char × List Char) → List Char
  | [] => []
  | (k, v) :: rest => ' ' :: (k ++ '=' :: '"' :: (escAttr v ++ '"' :: serAttrs rest))

mutual

/-- Embedding of `ET.tostring(elem, encoding='unicode')` without the element's own
tail (the tail is appended by `xmlToString`).  An element with no text and no
children is written in the short form `<tag attrs />`, otherwise in the long form
`<tag attrs>text...children...</tag>`, exactly as `ElementTree._serialize_xml`
does. -/
def serElem : XElem → List Char
  | .mk tag attrs text children _ =>
    if text.isEmpty && children.isNil then
      '<' :: (tag ++ serAttrs attrs ++ ' ' :: '/' :: ['>'])
    else
      '<' :: (tag ++ serAttrs attrs ++ ['>']) ++
        (escText text ++ serList children ++ ('<' :: '/' :: (tag ++ ['>'])))

/-- Serialize a children list: each child is followed by its (escaped) tail text. -/
def serList : XList → List Char
  | .nil => []
  | .cons c cs => serElem c ++ (escText c.tailOf ++ serList cs)

end

/-- Embedding of `ET.tostring(elem, encoding='unicode')`: the serialized element
followed by its own escaped tail (`ElementTree._serialize_xml` writes the tail of
the element it is given). -/
def xmlToString (e : XElem) : List Char :=
  serElem e ++ escText e.tailOf

/-- The canonical serialization computed by `calculate_hashes` (lotr.py:554-556,
559-561): `re.sub(r'\n\s*', '', ET.tostring(elem, encoding='unicode').strip())`. -/
def canonicalSer (e : XElem) : List Char :=
  stripNlWs (pyStrip (xmlToString e))

/-- The per-element fingerprint.  The code stores `hashlib.md5(canonical).hexdigest()`;
digests are only ever compared for equality, so the fingerprint is modelled by the
hash input itself (md5 is a function of it, and collisions are outside the model). -/
def cardFingerprint (e : XElem) : List Char :=
  canonicalSer e

/-- Texts are equal, or both are whitespace-only. This is the text-node relation of
claim C1 as stated: the two trees "differ only in whitespace-only text nodes". -/
def textEqOrWs (t₁ t₂ : List Char) : Bool :=
  t₁ == t₂ || (wsOnly t₁ && wsOnly t₂)

/-- Texts are equal, or both are nonempty whitespace-only texts beginning with a
newline (the shape of the pretty-printed whitespace actually removed by
`re.sub(r'\n\s*', '')`). -/
def textEqOrNl (t₁ t₂ : List Char) : Bool :=
  t₁ == t₂ || (wsOnly t₁ && wsOnly t₂ && t₁.headD 'x' == '\n' && t₂.headD 'x' == '\n')

mutual

/-- The relation of claim C1 as stated: same tag, same attributes and attribute
values, same child structure, and text/tail nodes that are equal or whitespace-only
on both sides. -/
def claimRel : XElem → XElem → Bool
  | .mk tag₁ attrs₁ text₁ ch₁ tl₁, .mk tag₂ attrs₂ text₂ ch₂ tl₂ =>
    tag₁ == tag₂ && attrs₁ == attrs₂ && textEqOrWs text₁ text₂ && textEqOrWs tl₁ tl₂ &&
      claimRelList ch₁ ch₂

/-- Pointwise `claimRel` on children lists. -/
def claimRelList : XList → XList → Bool
  | .nil, .nil => true
  | .cons c₁ r₁, .cons c₂ r₂ => claimRel c₁ c₂ && claimRelList r₁ r₂
  | _, _ => false

end

mutual

/-- The amended relation: same tag, same attributes, same child structure, and
text/tail nodes that are equal or are, on both sides, nonempty whitespace-only
texts beginning with a newline. -/
def wsRel : XElem → XElem → Bool
  | .mk tag₁ attrs₁ text₁ ch₁ tl₁, .mk tag₂ attrs₂ text₂ ch₂ tl₂ =>
    tag₁ == tag₂ && attrs₁ == attrs₂ && textEqOrNl text₁ text₂ && textEqOrNl tl₁ tl₂ &&
      wsRelList ch₁ ch₂

/-- Pointwise `wsRel` on children lists. -/
def wsRelList : XList → XList → Bool
  | .nil, .nil => true
  | .cons c₁ r₁, .cons c₂ r₂ => wsRel c₁ c₂ && wsRelList r₁ r₂
  | _, _ => false

end

/-- Embedding of Python dict assignment on an association list: update the value in
place if the key is present, else append the new pair. -/
def setPairs : List (List Char × List Char) → List Char → List Char → List (List Char × List Char)
  | [], k, v => [(k, v)]
  | (k', v') :: rest, k, v =>
    if k' == k then (k, v) :: rest else (k', v') :: setPairs rest k v

/-- First-occurrence lookup in an association list (Python dict lookup; keys are
unique by construction of `setPairs`). -/
def lookupA (m : List (List Char × List Char)) (k : List Char) : Option (List Char) :=
  (m.find? (fun p => p.1 == k)).map (fun p => p.2)

/-- Embedding of `elem.set(key, value)`. -/
def XElem.setA : XElem → List Char → List Char → XElem
  | .mk tag attrs text children tl, k, v => .mk tag (setPairs attrs k v) text children tl

/-- Embedding of `elem.attrib.get(key)`. -/
def XElem.getA : XElem → List Char → Option (List Char)
  | .mk _ attrs _ _ _, k => (attrs.find? (fun p => p.1 == k)).map (fun p => p.2)

/-- Embedding of `elem.attrib[key]` under the well-formedness hypotheses used by the
theorems (the attribute is present on every input the code runs on; Python raises
`KeyError` otherwise). -/
def attrD (e : XElem) (k : List Char) : List Char :=
  (e.getA k).getD []

/-- The cards of a set tree: the children of `root[0]` (lotr.py:553, 577, 580).
For a root with no child Python would raise `IndexError`; the theorems only
quantify over well-formed snapshots, where `root[0]` exists. -/
def rootCards (root : XElem) : List XElem :=
  match root with
  | .mk _ _ _ .nil _ => []
  | .mk _ _ _ (.cons c _) _ => c.childrenOf.toList

/-- Apply `f` to every card of the tree (the loop `for card in root[0]`), leaving
everything else unchanged. -/
def mapCards (f : XElem → XElem) (root : XElem) : XElem :=
  match root with
  | .mk tag attrs text .nil tl => .mk tag attrs text .nil tl
  | .mk tag attrs text (.cons (.mk t₀ a₀ x₀ ch₀ tl₀) rest) tl =>
      .mk tag attrs text (.cons (.mk t₀ a₀ x₀ (ch₀.map f) tl₀) rest) tl

/-- One step of the per-card hashing loop (lotr.py:553-557): compute the card's
fingerprint from its current serialization and store it in the `hash` attribute. -/
def hashCard (c : XElem) : XElem :=
  c.setA "hash".data (cardFingerprint c)

/-- The dictionary `old_hashes` built at lotr.py:577-578: for every card of the old
snapshot, `old_hashes[card.attrib['id']] = card.attrib['hash']` (later duplicates
overwrite earlier ones, as in a Python dict). -/
def oldHashesDict (oldRoot : XElem) : List (List Char × List Char) :=
  (rootCards oldRoot).foldl (fun m c => setPairs m (attrD c "id".data) (attrD c "hash".data)) []

/-- Embedding of `calculate_hashes` (lotr.py:542-590).  Input: the freshly generated
set tree and the optional previous snapshot (`None` when the `.old` file does not
exist).  Output: the annotated tree and the pair `(new_file_hash, old_file_hash)`
returned by the function (`old_file_hash = ''` when there is no previous
snapshot). -/
def calculate_hashes (root : XElem) (old : Option XElem) :
    XElem × List Char × List Char :=
  let root1 := mapCards hashCard root
  let newHash := canonicalSer root1
  let root2 := root1.setA "hash".data newHash
  match old with
  | none => (root2, newHash, [])
  | some oldRoot =>
    let oldHash := attrD oldRoot "hash".data
    let root3 := if oldHash == newHash then root2.setA "skip".data "1".data else root2
    let dict := oldHashesDict oldRoot
    let root4 := mapCards
      (fun c => if lookupA dict (attrD c "id".data) == some (attrD c "hash".data)
                then c.setA "skip".data "1".data else c) root3
    (root4, newHash, oldHash)

/-- Extension extraction `filename.split('.')[-1]` (lotr.py:142). -/
def imageExt (f : Fname) : List Char :=
  (splitOnChar '.' f).getLastD []

/-- Fixed-offset identifier extraction `filename[50:86]` (lotr.py:143). -/
def imageCardId (f : Fname) : List Char :=
  (f.drop 50).take 36

/-- A folder as seen by the single-level `os.walk` loops: the immediate files and
the immediate subfolders with their own contents (never touched, because every walk
breaks after the top level). -/
structure ImagesFolder where
  files : List Fname
  subfolders : List (Fname × List Fname)

/-- Embedding of `_clear_modified_images` (lotr.py:137-147): delete every immediate
file whose extension is `jpg` or `png` and whose embedded card identifier
(characters 50-85) is not in the skip set; the deletion loop is expressed as the
filter keeping exactly the files it does not remove. -/
def clear_modified_images (folder : ImagesFolder) (skip_ids : List (List Char)) :
    ImagesFolder :=
  { files := folder.files.filter (fun f =>
      !((imageExt f == "jpg".data || imageExt f == "png".data) &&
        !(skip_ids.contains (imageCardId f)))),
    subfolders := folder.subfolders }

/-- The role buckets built by `_collect_pdf_images` (lotr.py:1032-1034). -/
inductive BackRole : Type where
  | player
  | encounter
  | custom
deriving DecidableEq

/-- The classified image pool of `_collect_pdf_images`: one ordered list of
(front, back) path pairs per role. -/
structure PdfBuckets where
  player : List (Fname × Fname)
  encounter : List (Fname × Fname)
  custom : List (Fname × Fname)

/-- Path of the `imagesBack` folder holding the fixed official back images. -/
def imagesBackPath : Fname :=
  "imagesBack".data

/-- The fixed official player back used by `_collect_pdf_images` (lotr.py:1047). -/
def officialPlayerBack : Fname :=
  joinPath imagesBackPath "playerBackOfficial.png".data

/-- The fixed official encounter back used by `_collect_pdf_images` (lotr.py:1051). -/
def officialEncounterBack : Fname :=
  joinPath imagesBackPath "encounterBackOfficial.png".data

/-- The front test of `_collect_pdf_images` (lotr.py:1036-1038):
`parts[-1] != '1.png'` skips the file, so fronts are exactly the files whose last
dash-separated part is `1.png`. -/
def isPdfFront (f : Fname) : Bool :=
  (splitOnChar '-' f).getLastD [] == "1.png".data

/-- The sibling custom-back filename `'{}-2.png'.format('-'.join(parts[:-1]))`
(lotr.py:1040-1041). -/
def pdfBackName (f : Fname) : Fname :=
  List.intercalate "-".data (splitOnChar '-' f).dropLast ++ "-2.png".data

/-- Back-face resolution of `_collect_pdf_images` (lotr.py:1040-1056): the sibling
`-2` file when it exists in the pool, else the fixed official back selected by the
role character `parts[2]`, else `.ok none` (the card is logged and excluded).
Python evaluates `parts[2]` only on the no-custom-back path; when the filename has
fewer than 3 dash-separated parts this raises an uncaught `IndexError`
(lotr.py:1045), modelled by `.error ()`. -/
def resolvePdfBack (dir : Fname) (pool : List Fname) (f : Fname) :
    Except Unit (Option (BackRole × Fname)) :=
  let parts := splitOnChar '-' f
  if pool.contains (pdfBackName f) then
    .ok (some (.custom, joinPath dir (pdfBackName f)))
  else
    match parts.get? 2 with
    | none => .error ()
    | some p2 =>
      if p2 == "p".data then .ok (some (.player, officialPlayerBack))
      else if p2 == "e".data then .ok (some (.encounter, officialEncounterBack))
      else .ok none

/-- The contribution of one pool file to the buckets of `_collect_pdf_images`
(lotr.py:1035-1061): nothing for non-fronts and for fronts whose back resolution
excludes the card; otherwise `copies` identical (front, back) entries, where
`copies = 3 if parts[1] == 'p' else 1` (lotr.py:1058).  `parts[1]` is evaluated
after back resolution, so a dash-less front with a sibling `-2` back raises an
uncaught `IndexError`, modelled by `.error ()`; an `IndexError` raised inside back
resolution propagates. -/
def collectPdfOne (dir : Fname) (pool : List Fname) (f : Fname) :
    Except Unit (List (BackRole × (Fname × Fname))) :=
  if isPdfFront f then
    match resolvePdfBack dir pool f with
    | .error e => .error e
    | .ok none => .ok []
    | .ok (some (role, bp)) =>
      match (splitOnChar '-' f).get? 1 with
      | none => .error ()
      | some p1 =>
        .ok (List.replicate (if p1 == "p".data then 3 else 1)
          (role, (joinPath dir f, bp)))
  else .ok []

/-- Sequence the per-file results of a Python for-loop: the first uncaught
exception aborts the whole enclosing function, so no partial value is returned. -/
def exceptJoin {α : Type} : List (Except Unit (List α)) → Except Unit (List α)
  | [] => .ok []
  | x :: rest =>
    match x with
    | .error e => .error e
    | .ok l =>
      match exceptJoin rest with
      | .error e => .error e
      | .ok ls => .ok (l ++ ls)

/-- All entries appended by the `_collect_pdf_images` loop, in directory-listing
order, or the uncaught exception of the first file that raises. -/
def collectPdfEntries (dir : Fname) (pool : List Fname) :
    Except Unit (List (BackRole × (Fname × Fname))) :=
  exceptJoin (pool.map (collectPdfOne dir pool))

/-- One role bucket: the entries of that role, in append order (the loop appends to
`images[back_type]`). -/
def pdfBucket (entries : List (BackRole × (Fname × Fname))) (role : BackRole) :
    List (Fname × Fname) :=
  entries.filterMap (fun e => if e.1 = role then some e.2 else none)

/-- Embedding of `_collect_pdf_images` (lotr.py:1025-1065): `.ok none` models the
empty dict `{}` returned when the directory listing is empty (`if not filenames`),
which is the only falsy return value; `.error ()` models an uncaught `IndexError`
raised while classifying a file; otherwise the three buckets are built. -/
def collect_pdf_images (dir : Fname) (pool : List Fname) :
    Except Unit (Option PdfBuckets) :=
  if pool.isEmpty then .ok none
  else
    match collectPdfEntries dir pool with
    | .error e => .error e
    | .ok entries =>
      .ok (some { player := pdfBucket entries .player,
                  encounter := pdfBucket entries .encounter,
                  custom := pdfBucket entries .custom })

/-- Chunk a list into the 6-slot groups built at lotr.py:1087-1089:
`(images[key][i*6:(i+1)*6] + [None]*6)[:6]`, i.e. groups of 6, the last group
right-padded with empty slots. -/
def chunk6 {α : Type} : List α → List (List (Option α))
  | [] => []
  | [a] => [[some a, none, none, none, none, none]]
  | [a, b] => [[some a, some b, none, none, none, none]]
  | [a, b, c] => [[some a, some b, some c, none, none, none]]
  | [a, b, c, d] => [[some a, some b, some c, some d, none, none]]
  | [a, b, c, d, e] => [[some a, some b, some c, some d, some e, none]]
  | a :: b :: c :: d :: e :: f :: rest =>
      [some a, some b, some c, some d, some e, some f] :: chunk6 rest

/-- The back-sheet slot permutation applied at lotr.py:1095-1096:
`[back_page[2], back_page[1], back_page[0], back_page[5], back_page[4], back_page[3]]`. -/
def mirror6 {α : Type} (l : List (Option α)) : List (Option α) :=
  [l.getD 2 none, l.getD 1 none, l.getD 0 none, l.getD 5 none, l.getD 4 none]
    ++ [l.getD 3 none]

/-- The raw page groups of `generate_pdf` (lotr.py:1086-1089): the 6-slot groups of
each role bucket, concatenated in the fixed dict order player, encounter, custom. -/
def pages_raw (b : PdfBuckets) : List (List (Option (Fname × Fname))) :=
  chunk6 b.player ++ chunk6 b.encounter ++ chunk6 b.custom

/-- The emitted page sequence of `generate_pdf` (lotr.py:1091-1097): for every raw
group, the front page (slot fronts in original order) immediately followed by the
mirrored back page. -/
def pdfPages (b : PdfBuckets) : List (List (Option Fname)) :=
  ((pages_raw b).map (fun g =>
    [g.map (Option.map Prod.fst), mirror6 (g.map (Option.map Prod.snd))])).flatten

/-- The page-assembly core of `generate_pdf` (lotr.py:1068-1097): `.ok none` models
the early `return` taken when `_collect_pdf_images` returns the falsy `{}` (an
error is logged and no document is produced); `.error ()` models an uncaught
`IndexError` propagating out of `_collect_pdf_images`; otherwise the page sequence
that is drawn into every output document. -/
def generate_pdf_pages (dir : Fname) (pool : List Fname) :
    Except Unit (Option (List (List (Option Fname)))) :=
  match collect_pdf_images dir pool with
  | .error e => .error e
  | .ok none => .ok none
  | .ok (some b) => .ok (some (pdfPages b))

/-- The two print-on-demand services served by `_prepare_printing_images`. -/
inductive PrintService : Type where
  | mpc
  | dtc
deriving DecidableEq

/-- The file type of `_prepare_printing_images` (lotr.py:1165). -/
def svcExt : PrintService → List Char
  | .mpc => "png".data
  | .dtc => "jpg".data

/-- Python substring containment `needle in haystack`. -/
def isSubstr (needle : List Char) : List Char → Bool
  | [] => needle.isPrefixOf []
  | c :: rest => needle.isPrefixOf (c :: rest) || isSubstr needle rest

/-- The front test of `_prepare_printing_images` (lotr.py:1168-1170):
`if parts[-1] not in '1.{}'.format(file_type): continue`.  Note Python's `in` on
strings is substring containment, so the test keeps exactly the files whose last
dash-separated part is a substring of `1.png` (resp. `1.jpg`). -/
def isPrintFront (service : PrintService) (f : Fname) : Bool :=
  isSubstr ((splitOnChar '-' f).getLastD []) ("1.".data ++ svcExt service)

/-- The back filename `'{}-2.{}'.format('-'.join(parts[:-1]), file_type)`
(lotr.py:1172-1173, 1204-1206). -/
def printBackName (service : PrintService) (parts : List (List Char)) : Fname :=
  List.intercalate "-".data parts.dropLast ++ "-2.".data ++ svcExt service

/-- Back-face resolution of `_prepare_printing_images` (lotr.py:1172-1188): the
sibling `-2` file when it exists, else the fixed back selected by the role
character `parts[2]` and the service, else `.ok none` (error logged, file
skipped).  As at lotr.py:1045, `parts[2]` is evaluated only on the
no-custom-back path, and raises an uncaught `IndexError` (lotr.py:1175) when
the filename has fewer than 3 dash-separated parts, modelled by `.error ()`. -/
def resolvePrintBack (dir : Fname) (pool : List Fname) (service : PrintService)
    (f : Fname) : Except Unit (Option Fname) :=
  let parts := splitOnChar '-' f
  if pool.contains (printBackName service parts) then
    .ok (some (joinPath dir (printBackName service parts)))
  else
    match parts.get? 2 with
    | none => .error ()
    | some p2 =>
      if p2 == "p".data then
        .ok (some (joinPath imagesBackPath
          (if service = .mpc then "playerBackUnofficialMPC.png".data
           else "playerBackOfficialDTC.jpg".data)))
      else if p2 == "e".data then
        .ok (some (joinPath imagesBackPath
          (if service = .mpc then "encounterBackUnofficialMPC.png".data
           else "encounterBackOfficialDTC.jpg".data)))
      else .ok none

/-- Embedding of `re.sub(r'.{36}(?=-D\.(?:png|jpg))', '', name)` (lotr.py:1197,
1203, 1216, 1222) for `D` the digit `d`: scanning left to right, delete every run
of 36 characters that is immediately followed by `-D.png` or `-D.jpg`; scanning
resumes after the deleted run. -/
def stripIdBefore (d : Char) : List Char → List Char
  | [] => []
  | c :: rest =>
    if 36 ≤ (c :: rest).length &&
       ((('-' :: d :: ".png".data).isPrefixOf ((c :: rest).drop 36)) ||
        (('-' :: d :: ".jpg".data).isPrefixOf ((c :: rest).drop 36))) then
      stripIdBefore d ((c :: rest).drop 36)
    else c :: stripIdBefore d rest
termination_by l => l.length
decreasing_by
  · simp only [List.length_drop, List.length_cons]
    omega
  · simp

mutual

/-- Embedding of `re.sub('-+', '-', name)` (lotr.py:1196, 1202, 1215, 1221):
collapse every run of dashes to a single dash. -/
def collapseDashes : List Char → List Char
  | [] => []
  | c :: rest => if c == '-' then '-' :: dashDrop rest else c :: collapseDashes rest

/-- Helper of `collapseDashes`: we are inside a dash run whose first dash has been
emitted; drop the remaining dashes, then resume the scan. -/
def dashDrop : List Char → List Char
  | [] => []
  | c :: rest => if c == '-' then dashDrop rest else c :: collapseDashes rest

end

/-- Embedding of `re.sub(r'-(?:e|p)-', '-', name)` (lotr.py:1195, 1201, 1214,
1220): scanning left to right, replace `-e-` or `-p-` by `-`, resuming after the
replaced run. -/
def dropRoleMark : List Char → List Char
  | [] => []
  | '-' :: 'e' :: '-' :: rest => '-' :: dropRoleMark rest
  | '-' :: 'p' :: '-' :: rest => '-' :: dropRoleMark rest
  | c :: rest => c :: dropRoleMark rest

/-- The output renaming of `_prepare_printing_images` (lotr.py:1193-1198 and the
three analogous sites): strip the 36-character stable identifier in front of
`-d.png`/`-d.jpg`, collapse dash runs, then drop the `-e-`/`-p-` role marker. -/
def renameOut (d : Char) (name : Fname) : Fname :=
  dropRoleMark (collapseDashes (stripIdBefore d name))

/-- The copy operations `(destination, source)` emitted by one iteration of the
`_prepare_printing_images` loop (lotr.py:1166-1228): nothing for non-fronts and for
fronts whose back resolution excludes the card; 3 numbered front/back copy pairs
when `parts[1] == 'p'` (lotr.py:1190); one front/back copy pair otherwise.
`parts[1]` is evaluated after back resolution, so a dash-less front with a sibling
`-2` back raises an uncaught `IndexError`, modelled by `.error ()`; an
`IndexError` raised inside back resolution propagates. -/
def prepPrintFile (dir : Fname) (pool : List Fname) (outPath : Fname)
    (service : PrintService) (f : Fname) : Except Unit (List (Fname × Fname)) :=
  let parts := splitOnChar '-' f
  if isPrintFront service f then
    match resolvePrintBack dir pool service f with
    | .error e => .error e
    | .ok none => .ok []
    | .ok (some bp) =>
      match parts.get? 1 with
      | none => .error ()
      | some p1 =>
        if p1 == "p".data then
          .ok ((List.range 3).flatMap (fun i =>
            let parts2 := parts.set 1 (Nat.repr (i + 1)).data
            [(joinPath outPath (renameOut '1' (List.intercalate "-".data parts2)),
              joinPath dir f),
             (joinPath outPath (renameOut '2' (printBackName service parts2)), bp)]))
        else
          .ok [(joinPath outPath (renameOut '1' (List.intercalate "-".data parts)),
              joinPath dir f),
            (joinPath outPath (renameOut '2' (printBackName service parts)), bp)]
  else .ok []

/-- Embedding of `_prepare_printing_images` (lotr.py:1162-1230): the copy
operations of all pool files, in directory-listing order, or the uncaught
exception of the first file that raises. -/
def prepare_printing_images (dir : Fname) (pool : List Fname) (outPath : Fname)
    (service : PrintService) : Except Unit (List (Fname × Fname)) :=
  exceptJoin (pool.map (prepPrintFile dir pool outPath service))

/-- The clamp value `math.ceil((total_cnt - 10) / 120)` of `_deck_name`
(lotr.py:1253), as a natural number (only evaluated when `total_cnt > 130`, so the
subtraction never truncates). -/
def dtcMaxDeck (total_cnt : Nat) : Nat :=
  (total_cnt - 10 + 119) / 120

/-- The deck number `min(floor((current_cnt - 1) / 120) + 1, ceil((total_cnt - 10) / 120))`
of `_deck_name` (lotr.py:1252-1253). -/
def deck_number (current_cnt total_cnt : Nat) : Nat :=
  min ((current_cnt - 1) / 120 + 1) (dtcMaxDeck total_cnt)

/-- Embedding of `_deck_name` (lotr.py:1248-1255): the `deckN/` prefix when the
total front count exceeds 130, the empty prefix otherwise. -/
def deck_name (current_cnt total_cnt : Nat) : List Char :=
  if 130 < total_cnt then
    "deck".data ++ (Nat.repr (deck_number current_cnt total_cnt)).data ++ "/".data
  else []

/-- DriveThruCards front file: the filename ends in `-1.jpg` (lotr.py:1264, 1268). -/
def isFrontJpg (f : Fname) : Bool :=
  "-1.jpg".data.isSuffixOf f

/-- DriveThruCards back file: the filename ends in `-2.jpg` (lotr.py:1265, 1273). -/
def isBackJpg (f : Fname) : Bool :=
  "-2.jpg".data.isSuffixOf f

/-- Python string comparison: lexicographic on code points. -/
def lexLe : List Char → List Char → Bool
  | [], _ => true
  | _ :: _, [] => false
  | a :: as, b :: bs => if a < b then true else if b < a then false else lexLe as bs

/-- Insert into a sorted list (helper of `pySorted`). -/
def insertSorted (f : Fname) : List Fname → List Fname
  | [] => [f]
  | g :: rest => if lexLe f g then f :: g :: rest else g :: insertSorted f rest

/-- Embedding of Python `sorted` on filenames (insertion sort; agrees with Python's
stable sort, and the inputs of interest have pairwise distinct filenames). -/
def pySorted (l : List Fname) : List Fname :=
  l.foldr insertSorted []

/-- The archive-writing loop of `_prepare_dtc_printing_archive` (lotr.py:1267-1277):
walk the sorted filtered filenames keeping independent front and back counters, and
emit one archive entry `(archive path, source path)` per file, prefixed by the deck
name computed from the file's own counter. -/
def dtcGo (dir : Fname) (total : Nat) : List Fname → Nat → Nat → List (Fname × Fname)
  | [], _, _ => []
  | f :: rest, fc, bc =>
    if isFrontJpg f then
      (deck_name (fc + 1) total ++ "front/".data ++ f, joinPath dir f) ::
        dtcGo dir total rest (fc + 1) bc
    else if isBackJpg f then
      (deck_name (bc + 1) total ++ "back/".data ++ f, joinPath dir f) ::
        dtcGo dir total rest fc (bc + 1)
    else dtcGo dir total rest fc bc

/-- The sorted filtered filename list of `_prepare_dtc_printing_archive`
(lotr.py:1264-1265): the `-1.jpg`/`-2.jpg` files of the pool, sorted.  The Python
float `len(filenames) / 2` equals the natural-number division used below whenever
fronts and backs are paired, i.e. the count is even. -/
def dtcSortedPool (pool : List Fname) : List Fname :=
  pySorted (pool.filter (fun f => isFrontJpg f || isBackJpg f))

/-- Embedding of the entry emission of `_prepare_dtc_printing_archive`
(lotr.py:1266-1277) on the sorted filtered pool, with
`total_cnt = len(filenames) / 2`. -/
def prepare_dtc_printing_archive (dir : Fname) (pool : List Fname) :
    List (Fname × Fname) :=
  dtcGo dir ((dtcSortedPool pool).length / 2) (dtcSortedPool pool) 0 0

/-! ### Theorems -/

set_option maxRecDepth 10000 in
/-- Claim C2, counterexample to the claim as stated: the claim asserts that when the
total front-card count exceeds 130 the cards are distributed into "sub-archives of
at most 120 cards each", but for 250 front cards the clamp merges the would-be
third sub-archive into the second, which therefore receives 130 cards (indices 121
through 250). -/
theorem c2_counterexample :
    120 < ((List.range 250).countP fun j => deck_number (j + 1) 250 == 2) := by
  decide

/-- Claim C2, amended: for at most 130 front cards no sub-archive prefix is
produced; for more than 130, the sub-archive number of the card at 1-based index
`i` is `min (floor ((i-1)/120) + 1) (ceil ((total-10)/120))`; every non-final
sub-archive holds exactly the 120 indices `120*(d-1)+1 .. 120*d`, and the final
sub-archive holds the indices above `120*(m-1)`, which number more than 10 and at
most 130 (not at most 120, as the original claim said). -/
theorem c2_deck_split (total : Nat) :
    (total ≤ 130 → ∀ i, deck_name i total = []) ∧
    (130 < total →
      (∀ i, deck_number i total = min ((i - 1) / 120 + 1) (dtcMaxDeck total)) ∧
      1 ≤ dtcMaxDeck total ∧
      (∀ d i, 1 ≤ d → d < dtcMaxDeck total → 1 ≤ i →
        (deck_number i total = d ↔ 120 * (d - 1) < i ∧ i ≤ 120 * d)) ∧
      (∀ i, 1 ≤ i → i ≤ total →
        (deck_number i total = dtcMaxDeck total ↔ 120 * (dtcMaxDeck total - 1) < i)) ∧
      (120 * (dtcMaxDeck total - 1) + 10 < total ∧
        total ≤ 120 * (dtcMaxDeck total - 1) + 130)) := by
  refine ⟨fun h i => ?_, fun h => ⟨fun i => rfl, ?_, fun d i hd1 hd hi => ?_,
    fun i hi1 hi2 => ?_, ?_⟩⟩
  · simp only [deck_name]
    rw [if_neg (by omega)]
  · simp only [dtcMaxDeck]
    omega
  · simp only [deck_number, dtcMaxDeck] at *
    omega
  · simp only [deck_number, dtcMaxDeck] at *
    omega
  · simp only [dtcMaxDeck]
    omega

/-- Claim C2, witness: the amended theorem applied to a total of 131 front cards
yields the final-sub-archive size bounds. -/
theorem c2_witness :
    120 * (dtcMaxDeck 131 - 1) + 10 < 131 ∧ 131 ≤ 120 * (dtcMaxDeck 131 - 1) + 130 :=
  ((c2_deck_split 131).2 (by decide)).2.2.2.2

/-- Claim C9: `_clear_modified_images` leaves every subfolder untouched, and an
immediate file survives exactly when it is not a `jpg`/`png` file whose embedded
identifier (characters 50 through 85 of its name) lies outside the skip set. -/
theorem c9_clear_modified (folder : ImagesFolder) (skip_ids : List (List Char)) :
    (clear_modified_images folder skip_ids).subfolders = folder.subfolders ∧
    ∀ f, f ∈ (clear_modified_images folder skip_ids).files ↔
      (f ∈ folder.files ∧
        ¬((imageExt f = "jpg".data ∨ imageExt f = "png".data) ∧
          imageCardId f ∉ skip_ids)) := by
  refine ⟨rfl, fun f => ?_⟩
  have hc : (skip_ids.contains (imageCardId f) = true) ↔ imageCardId f ∈ skip_ids :=
    List.elem_iff
  simp only [clear_modified_images, List.mem_filter, Bool.not_eq_true', Bool.not_eq_false',
    Bool.and_eq_false_iff, Bool.or_eq_true, beq_iff_eq, Bool.or_eq_false_iff,
    beq_eq_false_iff_ne, ne_eq, hc]
  tauto

/-- Claim C9, witness: the theorem applied to a concrete folder and skip set. -/
theorem c9_witness :
    (clear_modified_images ⟨["a.png".data], [("sub".data, ["b.png".data])]⟩
        []).subfolders = [("sub".data, ["b.png".data])] ∧
    ∀ f, f ∈ (clear_modified_images ⟨["a.png".data], [("sub".data, ["b.png".data])]⟩
        []).files ↔
      (f ∈ ["a.png".data] ∧
        ¬((imageExt f = "jpg".data ∨ imageExt f = "png".data) ∧
          imageCardId f ∉ ([] : List (List Char)))) :=
  c9_clear_modified ⟨["a.png".data], [("sub".data, ["b.png".data])]⟩ []

/-- Claim C8, counterexample to the claim as stated: a pool holding one file that
yields zero (front, back) pairs (`a.txt` is not a front).  `_collect_pdf_images`
returns the truthy dict of three empty buckets, so `generate_pdf` does not take its
early-return branch: it produces its PDF documents (with an empty page sequence)
instead of reporting an error and returning early. -/
theorem c8_counterexample :
    collect_pdf_images "in".data ["a.txt".data] =
      .ok (some { player := [], encounter := [], custom := [] }) ∧
    generate_pdf_pages "in".data ["a.txt".data] = .ok (some []) :=
  ⟨rfl, rfl⟩

/-- Claim C8, amended: `generate_pdf` reports an error and returns early without
producing any document exactly when the directory listing itself is empty.  When
the listing is nonempty it never takes that path: if classifying the files raises
no `IndexError` (well-formed filenames), the documents are produced, even when the
pool yields zero (front, back) pairs (the page sequence is then empty). -/
theorem c8_empty_pool (dir : Fname) (pool : List Fname) :
    (generate_pdf_pages dir pool = .ok none ↔ pool = []) ∧
    (pool ≠ [] → ∀ entries, collectPdfEntries dir pool = .ok entries →
      ∃ pgs, generate_pdf_pages dir pool = .ok (some pgs)) := by
  cases pool with
  | nil => simp [generate_pdf_pages, collect_pdf_images]
  | cons g rest =>
    constructor
    · simp only [generate_pdf_pages, collect_pdf_images, List.isEmpty_cons,
        Bool.false_eq_true, if_false]
      cases collectPdfEntries dir (g :: rest) <;> simp
    · intro _ entries he
      refine ⟨pdfPages (PdfBuckets.mk (pdfBucket entries .player)
        (pdfBucket entries .encounter) (pdfBucket entries .custom)), ?_⟩
      simp [generate_pdf_pages, collect_pdf_images, he]

/-- Claim C8, witness: the amended theorem applied to a concrete nonempty pool
whose single file is classified without an exception and yields zero pairs. -/
theorem c8_witness :
    (["a.txt".data] : List Fname) ≠ [] ∧
    ∃ pgs, generate_pdf_pages "in".data ["a.txt".data] = .ok (some pgs) :=
  ⟨by decide, (c8_empty_pool "in".data ["a.txt".data]).2 (by decide) [] rfl⟩

/-- A file ending in `-1.jpg` does not end in `-2.jpg`. -/
theorem isFrontJpg_not_isBackJpg (f : Fname) (h : isFrontJpg f = true) :
    isBackJpg f = false := by
  rw [isFrontJpg, List.isSuffixOf_iff_suffix] at h
  rw [isBackJpg]
  by_contra hb
  rw [Bool.not_eq_false, List.isSuffixOf_iff_suffix] at hb
  obtain ⟨t, ht⟩ := h
  obtain ⟨r, hr⟩ := hb
  have hlen : t.length = r.length := by
    have := congrArg List.length (ht.trans hr.symm)
    simpa using this
  have := (List.append_inj (ht.trans hr.symm) hlen).2
  simp at this

/-- In `_prepare_dtc_printing_archive`, the `k`-th front file (0-based, in the order
of the walked list) is written with the deck prefix of counter value `fc + k + 1`,
where `fc` is the front counter's initial value. -/
theorem dtcGo_front_mem (dir : Fname) (total : Nat) :
    ∀ (l : List Fname) (fc bc k : Nat) (f : Fname),
      (l.filter isFrontJpg).get? k = some f →
      (deck_name (fc + k + 1) total ++ "front/".data ++ f, joinPath dir f) ∈
        dtcGo dir total l fc bc
  | [], _, _, k, f, h => by simp [List.filter_nil] at h
  | g :: rest, fc, bc, k, f, h => by
    by_cases hg : isFrontJpg g = true
    · rw [List.filter_cons_of_pos hg] at h
      cases k with
      | zero =>
        rw [List.get?_cons_zero, Option.some_inj] at h
        subst h
        simp [dtcGo, hg]
      | succ k =>
        rw [List.get?_cons_succ] at h
        have hmem := dtcGo_front_mem dir total rest (fc + 1) bc k f h
        have harith : fc + 1 + k + 1 = fc + (k + 1) + 1 := by omega
        rw [harith] at hmem
        simp only [dtcGo, hg, if_true]
        exact List.mem_cons_of_mem _ hmem
    · rw [List.filter_cons_of_neg hg] at h
      by_cases hb : isBackJpg g = true
      · have hmem := dtcGo_front_mem dir total rest fc (bc + 1) k f h
        simp only [dtcGo, hg, hb, if_false, if_true]
        exact List.mem_cons_of_mem _ hmem
      · have hmem := dtcGo_front_mem dir total rest fc bc k f h
        simp only [dtcGo, hg, hb, if_false]
        exact hmem

/-- In `_prepare_dtc_printing_archive`, the `k`-th back file (0-based) is written
with the deck prefix of counter value `bc + k + 1`, where `bc` is the back
counter's initial value. -/
theorem dtcGo_back_mem (dir : Fname) (total : Nat) :
    ∀ (l : List Fname) (fc bc k : Nat) (b : Fname),
      (l.filter isBackJpg).get? k = some b →
      (deck_name (bc + k + 1) total ++ "back/".data ++ b, joinPath dir b) ∈
        dtcGo dir total l fc bc
  | [], _, _, k, b, h => by simp [List.filter_nil] at h
  | g :: rest, fc, bc, k, b, h => by
    by_cases hg : isFrontJpg g = true
    · rw [List.filter_cons_of_neg (by simp [isFrontJpg_not_isBackJpg g hg])] at h
      have hmem := dtcGo_back_mem dir total rest (fc + 1) bc k b h
      simp only [dtcGo, hg, if_true]
      exact List.mem_cons_of_mem _ hmem
    · by_cases hb : isBackJpg g = true
      · rw [List.filter_cons_of_pos hb] at h
        cases k with
        | zero =>
          rw [List.get?_cons_zero, Option.some_inj] at h
          subst h
          simp [dtcGo, hg, hb]
        | succ k =>
          rw [List.get?_cons_succ] at h
          have hmem := dtcGo_back_mem dir total rest fc (bc + 1) k b h
          have harith : bc + 1 + k + 1 = bc + (k + 1) + 1 := by omega
          rw [harith] at hmem
          simp only [dtcGo, hg, hb, if_false, if_true]
          exact List.mem_cons_of_mem _ hmem
      · rw [List.filter_cons_of_neg hb] at h
        have hmem := dtcGo_back_mem dir total rest fc bc k b h
        simp only [dtcGo, hg, hb, if_false]
        exact hmem

/-- Claim C10: in the DriveThruCards archive, the `k`-th front file and the `k`-th
back file of the sorted filtered pool are both written under the deck prefix
`deck_name (k+1) total`, where `total` is the shared `len(filenames) / 2`; the two
prefixes are therefore identical, so a front and the back at the same sorted rank
always land in the same sub-archive. -/
theorem c10_pairing_split (dir : Fname) (pool : List Fname) (k : Nat) (f b : Fname)
    (hf : ((dtcSortedPool pool).filter isFrontJpg).get? k = some f)
    (hb : ((dtcSortedPool pool).filter isBackJpg).get? k = some b) :
    (deck_name (k + 1) ((dtcSortedPool pool).length / 2) ++ "front/".data ++ f,
        joinPath dir f) ∈ prepare_dtc_printing_archive dir pool ∧
    (deck_name (k + 1) ((dtcSortedPool pool).length / 2) ++ "back/".data ++ b,
        joinPath dir b) ∈ prepare_dtc_printing_archive dir pool := by
  have h1 := dtcGo_front_mem dir ((dtcSortedPool pool).length / 2)
    (dtcSortedPool pool) 0 0 k f hf
  have h2 := dtcGo_back_mem dir ((dtcSortedPool pool).length / 2)
    (dtcSortedPool pool) 0 0 k b hb
  simp only [Nat.zero_add] at h1 h2
  exact ⟨h1, h2⟩

/-- Claim C10, witness: a concrete four-file pool with two paired cards; the first
front and the first back of the sorted order share the (here empty) deck prefix. -/
theorem c10_witness :
    ((dtcSortedPool ["b-2.jpg".data, "b-1.jpg".data, "a-1.jpg".data, "a-2.jpg".data]).filter
        isFrontJpg).get? 0 = some "a-1.jpg".data ∧
    (deck_name 1 ((dtcSortedPool ["b-2.jpg".data, "b-1.jpg".data, "a-1.jpg".data,
          "a-2.jpg".data]).length / 2) ++ "front/".data ++ "a-1.jpg".data,
        joinPath "in".data "a-1.jpg".data) ∈
      prepare_dtc_printing_archive "in".data
        ["b-2.jpg".data, "b-1.jpg".data, "a-1.jpg".data, "a-2.jpg".data] :=
  ⟨by decide,
   (c10_pairing_split "in".data
      ["b-2.jpg".data, "b-1.jpg".data, "a-1.jpg".data, "a-2.jpg".data] 0
      "a-1.jpg".data "a-2.jpg".data (by decide) (by decide)).1⟩

/-- Claim C5: for every 6-slot group of the raw page list whose slots are
`[a₁, a₂, a₃, a₄, a₅, a₆]`, the emitted page sequence contains, at consecutive
positions, the front sheet with the slot fronts in original order and the back
sheet with the slot backs reordered by the permutation [2,1,0,5,4,3], i.e.
`[a₃, a₂, a₁, a₆, a₅, a₄]`. -/
theorem c5_mirror_pagination (b : PdfBuckets) (g : List (Option (Fname × Fname)))
    (a₁ a₂ a₃ a₄ a₅ a₆ : Option (Fname × Fname))
    (hg : g ∈ pages_raw b) (he : g = [a₁, a₂, a₃, a₄, a₅, a₆]) :
    ∃ n, (pdfPages b).get? n =
        some [a₁.map Prod.fst, a₂.map Prod.fst, a₃.map Prod.fst,
              a₄.map Prod.fst, a₅.map Prod.fst, a₆.map Prod.fst] ∧
      (pdfPages b).get? (n + 1) =
        some [a₃.map Prod.snd, a₂.map Prod.snd, a₁.map Prod.snd,
              a₆.map Prod.snd, a₅.map Prod.snd, a₄.map Prod.snd] := by
  subst he
  obtain ⟨s, t, hst⟩ := List.append_of_mem hg
  refine ⟨((s.map (fun g => [g.map (Option.map Prod.fst),
    mirror6 (g.map (Option.map Prod.snd))])).flatten).length, ?_, ?_⟩ <;>
    simp only [pdfPages, hst, List.map_append, List.map_cons, List.flatten_append,
      List.flatten_cons]
  · rw [List.get?_append_right (by omega)]
    simp [mirror6]
  · rw [List.get?_append_right (by omega)]
    simp [mirror6]

/-- Claim C5, witness: a concrete single-group bucket list. -/
theorem c5_witness :
    ∃ n,
      (pdfPages
            { player := [(("f1".data, "b1".data)), (("f2".data, "b2".data)),
                (("f3".data, "b3".data))],
              encounter := [], custom := [] }).get? n =
        some [some "f1".data, some "f2".data, some "f3".data, none, none, none] ∧
      (pdfPages
            { player := [(("f1".data, "b1".data)), (("f2".data, "b2".data)),
                (("f3".data, "b3".data))],
              encounter := [], custom := [] }).get? (n + 1) =
        some [some "b3".data, some "b2".data, some "b1".data, none, none, none] :=
  c5_mirror_pagination
    { player := [(("f1".data, "b1".data)), (("f2".data, "b2".data)),
        (("f3".data, "b3".data))],
      encounter := [], custom := [] }
    [some ("f1".data, "b1".data), some ("f2".data, "b2".data),
      some ("f3".data, "b3".data), none, none, none]
    (some ("f1".data, "b1".data)) (some ("f2".data, "b2".data))
    (some ("f3".data, "b3".data)) none none none
    (by decide) rfl

/-- Every back chosen by `resolvePdfBack` (when it returns without raising) is
either the sibling custom back (a file of the pool) or one of the two fixed
official backs. -/
theorem resolvePdfBack_spec (dir : Fname) (pool : List Fname) (g : Fname)
    (role : BackRole) (rb : Fname)
    (hres : resolvePdfBack dir pool g = .ok (some (role, rb))) :
    (pdfBackName g ∈ pool ∧ rb = joinPath dir (pdfBackName g)) ∨
      rb = officialPlayerBack ∨ rb = officialEncounterBack := by
  unfold resolvePdfBack at hres
  dsimp only at hres
  split at hres
  · simp only [Except.ok.injEq, Option.some_inj, Prod.mk.injEq] at hres
    rename_i hcond
    exact Or.inl ⟨by simpa [List.elem_iff] using hcond, hres.2.symm⟩
  · cases hp2 : (splitOnChar '-' g).get? 2 with
    | none =>
      rw [hp2] at hres
      simp at hres
    | some p2 =>
      rw [hp2] at hres
      dsimp only at hres
      split at hres
      · simp only [Except.ok.injEq, Option.some_inj, Prod.mk.injEq] at hres
        exact Or.inr (Or.inl hres.2.symm)
      · split at hres
        · simp only [Except.ok.injEq, Option.some_inj, Prod.mk.injEq] at hres
          exact Or.inr (Or.inr hres.2.symm)
        · simp at hres

/-- Every entry contributed by one file to the PDF pool (when the file is
classified without an exception) carries a back that exists: an official back or a
file of the pool. -/
theorem collectPdfOne_back (dir : Fname) (pool : List Fname) (g : Fname)
    (entries : List (BackRole × (Fname × Fname)))
    (he : collectPdfOne dir pool g = .ok entries) :
    ∀ e ∈ entries, e.2.2 = officialPlayerBack ∨ e.2.2 = officialEncounterBack ∨
      ∃ b, b ∈ pool ∧ e.2.2 = joinPath dir b := by
  intro e hmem
  unfold collectPdfOne at he
  by_cases hfront : isPdfFront g = true
  · rw [if_pos hfront] at he
    cases hres : resolvePdfBack dir pool g with
    | error err =>
      rw [hres] at he
      simp at he
    | ok ob =>
      cases ob with
      | none =>
        rw [hres] at he
        simp only [Except.ok.injEq] at he
        subst he
        simp at hmem
      | some rb =>
        obtain ⟨role, bp⟩ := rb
        rw [hres] at he
        dsimp only at he
        cases hp1 : (splitOnChar '-' g).get? 1 with
        | none =>
          rw [hp1] at he
          simp at he
        | some p1 =>
          rw [hp1] at he
          simp only [Except.ok.injEq] at he
          subst he
          have he2 := List.eq_of_mem_replicate hmem
          rcases resolvePdfBack_spec dir pool g role bp hres with
            ⟨hmem2, hb⟩ | hb | hb
          · exact Or.inr (Or.inr ⟨pdfBackName g, hmem2, by simp [he2, hb]⟩)
          · exact Or.inl (by simp [he2, hb])
          · exact Or.inr (Or.inl (by simp [he2, hb]))
  · rw [if_neg hfront] at he
    simp only [Except.ok.injEq] at he
    subst he
    simp at hmem

/-- Claim C6: back-face resolution.  For a front whose third dash-separated part
exists (`parts[2]` does not raise), the sibling `-2.png` file wins when it exists
in the pool; otherwise the fixed official player/encounter back is chosen by the
role character; otherwise the card is excluded without an exception (its
contribution is empty).  When `parts[2]` does not exist and there is no custom
back, the program raises `IndexError` instead.  The analogous facts hold for the
packaging resolver, and every entry emitted by a successfully classified file
carries a back that is an official back or a file of the pool — no card is ever
emitted with a missing back. -/
theorem c6_back_resolution (dir : Fname) (pool : List Fname) (f : Fname)
    (service : PrintService) :
    (pool.contains (pdfBackName f) = true →
      resolvePdfBack dir pool f = .ok (some (.custom, joinPath dir (pdfBackName f)))) ∧
    (pool.contains (pdfBackName f) = false →
      (∀ p2, (splitOnChar '-' f).get? 2 = some p2 →
        (p2 = "p".data →
          resolvePdfBack dir pool f = .ok (some (.player, officialPlayerBack))) ∧
        (p2 = "e".data →
          resolvePdfBack dir pool f = .ok (some (.encounter, officialEncounterBack))) ∧
        (p2 ≠ "p".data → p2 ≠ "e".data →
          resolvePdfBack dir pool f = .ok none ∧ collectPdfOne dir pool f = .ok [])) ∧
      ((splitOnChar '-' f).get? 2 = none → resolvePdfBack dir pool f = .error ())) ∧
    (pool.contains (printBackName service (splitOnChar '-' f)) = true →
      resolvePrintBack dir pool service f =
        .ok (some (joinPath dir (printBackName service (splitOnChar '-' f))))) ∧
    (pool.contains (printBackName service (splitOnChar '-' f)) = false →
      (∀ p2, (splitOnChar '-' f).get? 2 = some p2 → p2 ≠ "p".data → p2 ≠ "e".data →
        resolvePrintBack dir pool service f = .ok none ∧
          prepPrintFile dir pool dir service f = .ok []) ∧
      ((splitOnChar '-' f).get? 2 = none →
        resolvePrintBack dir pool service f = .error ())) ∧
    (∀ (g : Fname) (entries : List (BackRole × (Fname × Fname))),
      collectPdfOne dir pool g = .ok entries →
      ∀ e ∈ entries, e.2.2 = officialPlayerBack ∨ e.2.2 = officialEncounterBack ∨
        ∃ b, b ∈ pool ∧ e.2.2 = joinPath dir b) := by
  refine ⟨fun hc => ?_,
    fun hc => ⟨fun p2 hp2 => ⟨fun hp => ?_, fun hpe => ?_, fun hp hpe => ⟨?_, ?_⟩⟩,
      fun hn => ?_⟩,
    fun hc => ?_,
    fun hc => ⟨fun p2 hp2 hp hpe => ⟨?_, ?_⟩, fun hn => ?_⟩,
    fun g entries he e hm => collectPdfOne_back dir pool g entries he e hm⟩
  · have hmem : pdfBackName f ∈ pool := List.elem_iff.mp hc
    simp [resolvePdfBack, hmem]
  · have hmem : pdfBackName f ∉ pool := by simpa using hc
    have hp2' : (splitOnChar '-' f)[2]? = some p2 := by
      simpa [← List.get?_eq_getElem?] using hp2
    simp [resolvePdfBack, hmem, hp2', hp]
  · have hmem : pdfBackName f ∉ pool := by simpa using hc
    have hp2' : (splitOnChar '-' f)[2]? = some p2 := by
      simpa [← List.get?_eq_getElem?] using hp2
    have h1 : ¬("e".data = "p".data) := by decide
    subst hpe
    simp [resolvePdfBack, hmem, hp2', h1]
  · have hmem : pdfBackName f ∉ pool := by simpa using hc
    have hp2' : (splitOnChar '-' f)[2]? = some p2 := by
      simpa [← List.get?_eq_getElem?] using hp2
    simp [resolvePdfBack, hmem, hp2', hp, hpe]
  · have hmem : pdfBackName f ∉ pool := by simpa using hc
    have hp2' : (splitOnChar '-' f)[2]? = some p2 := by
      simpa [← List.get?_eq_getElem?] using hp2
    have hres : resolvePdfBack dir pool f = .ok none := by
      simp [resolvePdfBack, hmem, hp2', hp, hpe]
    cases hfront : isPdfFront f <;> simp [collectPdfOne, hfront, hres]
  · have hmem : pdfBackName f ∉ pool := by simpa using hc
    have hn' : (splitOnChar '-' f)[2]? = none := by
      simpa [← List.get?_eq_getElem?] using hn
    simp [resolvePdfBack, hmem, hn']
  · have hmem : printBackName service (splitOnChar '-' f) ∈ pool := List.elem_iff.mp hc
    simp [resolvePrintBack, hmem]
  · have hmem : printBackName service (splitOnChar '-' f) ∉ pool := by simpa using hc
    have hp2' : (splitOnChar '-' f)[2]? = some p2 := by
      simpa [← List.get?_eq_getElem?] using hp2
    simp [resolvePrintBack, hmem, hp2', hp, hpe]
  · have hmem : printBackName service (splitOnChar '-' f) ∉ pool := by simpa using hc
    have hp2' : (splitOnChar '-' f)[2]? = some p2 := by
      simpa [← List.get?_eq_getElem?] using hp2
    have hres : resolvePrintBack dir pool service f = .ok none := by
      simp [resolvePrintBack, hmem, hp2', hp, hpe]
    cases hfront : isPrintFront service f <;> simp [prepPrintFile, hfront, hres]
  · have hmem : printBackName service (splitOnChar '-' f) ∉ pool := by simpa using hc
    have hn' : (splitOnChar '-' f)[2]? = none := by
      simpa [← List.get?_eq_getElem?] using hn
    simp [resolvePrintBack, hmem, hn']

/-- Claim C6, witness: a pool holding a custom pair resolves the front to its
sibling custom back. -/
theorem c6_witness :
    resolvePdfBack "in".data ["X-1.png".data, "X-2.png".data] "X-1.png".data =
      .ok (some (.custom, joinPath "in".data (pdfBackName "X-1.png".data))) :=
  (c6_back_resolution "in".data ["X-1.png".data, "X-2.png".data] "X-1.png".data
    .mpc).1 (by decide)

/-- Claim C7: player replication.  A front whose filename carries the player
replication marker (`parts[1] == 'p'`), whose back resolves, and whose second
dash-separated part exists (`parts[1]` does not raise) yields exactly 3 front copy
operations and 3 back copy operations (sources alternating front, back) in the
packaging stage, and 3 entries in the PDF image pool; any other such front yields
exactly one front and one back. -/
theorem c7_player_replication (dir : Fname) (pool : List Fname) (outPath : Fname)
    (service : PrintService)
    (f : Fname) (bp : Fname) (p1 : List Char)
    (dir₂ : Fname) (pool₂ : List Fname) (g : Fname) (rb : BackRole × Fname)
    (q1 : List Char)
    (hfront : isPrintFront service f = true)
    (hres : resolvePrintBack dir pool service f = .ok (some bp))
    (hp1 : (splitOnChar '-' f).get? 1 = some p1)
    (hgfront : isPdfFront g = true)
    (hgres : resolvePdfBack dir₂ pool₂ g = .ok (some rb))
    (hq1 : (splitOnChar '-' g).get? 1 = some q1) :
    (p1 = "p".data →
      Except.map (fun ops => ops.map Prod.snd)
          (prepPrintFile dir pool outPath service f) =
        .ok [joinPath dir f, bp, joinPath dir f, bp, joinPath dir f, bp]) ∧
    (p1 ≠ "p".data →
      Except.map (fun ops => ops.map Prod.snd)
          (prepPrintFile dir pool outPath service f) =
        .ok [joinPath dir f, bp]) ∧
    (q1 = "p".data →
      Except.map List.length (collectPdfOne dir₂ pool₂ g) = .ok 3) ∧
    (q1 ≠ "p".data →
      Except.map List.length (collectPdfOne dir₂ pool₂ g) = .ok 1) := by
  obtain ⟨grole, grb⟩ := rb
  refine ⟨fun hp => ?_, fun hp => ?_, fun hp => ?_, fun hp => ?_⟩
  · unfold prepPrintFile
    dsimp only
    rw [if_pos hfront, hres]
    dsimp only
    rw [hp1]
    dsimp only
    rw [if_pos (beq_iff_eq.mpr hp)]
    have h3 : List.range 3 = [0, 1, 2] := rfl
    rw [h3]
    simp [Except.map]
  · unfold prepPrintFile
    dsimp only
    rw [if_pos hfront, hres]
    dsimp only
    rw [hp1]
    dsimp only
    rw [if_neg (by simpa using beq_eq_false_iff_ne.mpr hp)]
    simp [Except.map]
  · unfold collectPdfOne
    rw [if_pos hgfront, hgres]
    dsimp only
    rw [hq1]
    dsimp only
    rw [if_pos (beq_iff_eq.mpr hp)]
    simp [Except.map]
  · unfold collectPdfOne
    rw [if_pos hgfront, hgres]
    dsimp only
    rw [hq1]
    dsimp only
    rw [if_neg (by simpa using beq_eq_false_iff_ne.mpr hp)]
    simp [Except.map]

/-- Claim C7, witness: a player-marked front without custom back, under the MPC
service, yields the three front/back source pairs. -/
theorem c7_witness :
    ("p".data = "p".data) ∧
    Except.map (fun ops => ops.map Prod.snd)
        (prepPrintFile "in".data [] "out".data .mpc "S-p-p-1.png".data) =
      .ok [joinPath "in".data "S-p-p-1.png".data,
        joinPath imagesBackPath "playerBackUnofficialMPC.png".data,
        joinPath "in".data "S-p-p-1.png".data,
        joinPath imagesBackPath "playerBackUnofficialMPC.png".data,
        joinPath "in".data "S-p-p-1.png".data,
        joinPath imagesBackPath "playerBackUnofficialMPC.png".data] :=
  ⟨rfl,
   (c7_player_replication "in".data [] "out".data .mpc "S-p-p-1.png".data
      (joinPath imagesBackPath "playerBackUnofficialMPC.png".data) "p".data
      "in".data [] "S-p-p-1.png".data (.player, officialPlayerBack) "p".data
      (by decide) rfl (by decide) (by decide) rfl (by decide)).1 rfl⟩

/-- Looking up the key just set yields the value just set. -/
theorem lookupA_setPairs_same (m : List (List Char × List Char)) (k v : List Char) :
    lookupA (setPairs m k v) k = some v := by
  induction m with
  | nil => simp [setPairs, lookupA]
  | cons p rest ih =>
    obtain ⟨k', v'⟩ := p
    by_cases h : (k' == k) = true
    · simp [setPairs, h, lookupA]
    · have h' : (k' == k) = false := by simpa using h
      simp only [setPairs, h', Bool.false_eq_true, if_false, lookupA, List.find?_cons, h']
      simpa [lookupA] using ih

/-- Setting one key leaves lookups of other keys unchanged. -/
theorem lookupA_setPairs_other (m : List (List Char × List Char)) (k v k' : List Char)
    (h : k' ≠ k) : lookupA (setPairs m k v) k' = lookupA m k' := by
  induction m with
  | nil => simp [setPairs, lookupA, beq_eq_false_iff_ne.mpr (Ne.symm h)]
  | cons p rest ih =>
    obtain ⟨a, b⟩ := p
    by_cases ha : (a == k) = true
    · have ha' : a = k := by simpa using ha
      subst ha'
      have hk' : (a == k') = false := beq_eq_false_iff_ne.mpr (Ne.symm h)
      simp [setPairs, lookupA, List.find?_cons, hk']
    · have ha' : (a == k) = false := by simpa using ha
      simp only [setPairs, ha', Bool.false_eq_true, if_false]
      by_cases hk' : (a == k') = true
      · simp [lookupA, List.find?_cons, hk']
      · have hk'' : (a == k') = false := by simpa using hk'
        simpa [lookupA, List.find?_cons, hk''] using ih

/-- Element-level version of `lookupA_setPairs_same`. -/
theorem getA_setA_same (e : XElem) (k v : List Char) :
    (e.setA k v).getA k = some v := by
  cases e
  simpa [XElem.setA, XElem.getA, lookupA] using lookupA_setPairs_same _ k v

/-- Element-level version of `lookupA_setPairs_other`. -/
theorem getA_setA_other (e : XElem) (k v k' : List Char) (h : k' ≠ k) :
    (e.setA k v).getA k' = e.getA k' := by
  cases e
  simpa [XElem.setA, XElem.getA, lookupA] using lookupA_setPairs_other _ k v k' h

/-- Attribute-with-default version of `getA_setA_same`. -/
theorem attrD_setA_same (e : XElem) (k v : List Char) : attrD (e.setA k v) k = v := by
  rw [attrD, getA_setA_same]
  rfl

/-- Attribute-with-default version of `getA_setA_other`. -/
theorem attrD_setA_other (e : XElem) (k v k' : List Char) (h : k' ≠ k) :
    attrD (e.setA k v) k' = attrD e k' := by
  rw [attrD, getA_setA_other e k v k' h, attrD]

/-- The per-card loops do not touch the root's attributes. -/
theorem mapCards_getA (f : XElem → XElem) (root : XElem) (k : List Char) :
    (mapCards f root).getA k = root.getA k := by
  cases root with
  | mk tag attrs text children tl =>
    cases children with
    | nil => rfl
    | cons c rest => cases c; rfl

/-- Setting a root attribute does not change the card list. -/
theorem rootCards_setA (e : XElem) (k v : List Char) :
    rootCards (e.setA k v) = rootCards e := by
  cases e with
  | mk tag attrs text children tl => cases children <;> rfl

/-- `XList.toList` commutes with `XList.map`. -/
theorem XList.toList_map (f : XElem → XElem) : ∀ (l : XList),
    (l.map f).toList = l.toList.map f
  | .nil => rfl
  | .cons c rest => by
    simp [XList.map, XList.toList, XList.toList_map f rest]

/-- The card list of the mapped tree is the mapped card list. -/
theorem rootCards_mapCards (f : XElem → XElem) (root : XElem) :
    rootCards (mapCards f root) = (rootCards root).map f := by
  cases root with
  | mk tag attrs text children tl =>
    cases children with
    | nil => rfl
    | cons c rest =>
      cases c
      simp [mapCards, rootCards, XElem.childrenOf, XList.toList_map]

/-- Inserting pairs whose keys all differ from `k` leaves the entry of `k` at the
head of the accumulator. -/
theorem foldl_setPairs_cons (l : List XElem) (m : List (List Char × List Char))
    (k v : List Char) (h : ∀ c ∈ l, attrD c "id".data ≠ k) :
    l.foldl (fun m c => setPairs m (attrD c "id".data) (attrD c "hash".data))
        ((k, v) :: m) =
      (k, v) ::
        l.foldl (fun m c => setPairs m (attrD c "id".data) (attrD c "hash".data)) m := by
  induction l generalizing m with
  | nil => rfl
  | cons c rest ih =>
    have hk : attrD c "id".data ≠ k := h c (by simp)
    have hbeq : (k == attrD c "id".data) = false :=
      beq_eq_false_iff_ne.mpr (Ne.symm hk)
    have hstep : setPairs ((k, v) :: m) (attrD c "id".data) (attrD c "hash".data) =
        (k, v) :: setPairs m (attrD c "id".data) (attrD c "hash".data) := by
      simp only [setPairs, hbeq, Bool.false_eq_true, if_false]
    simp only [List.foldl_cons, hstep]
    exact ih _ (fun c hc => h c (by simp [hc]))

/-- With pairwise-distinct ids, folding dict insertion over a card list yields the
list of (id, hash) pairs in card order. -/
theorem foldl_setPairs_eq (l : List XElem)
    (hnodup : (l.map (fun c => attrD c "id".data)).Nodup) :
    l.foldl (fun m c => setPairs m (attrD c "id".data) (attrD c "hash".data)) [] =
      l.map (fun c => (attrD c "id".data, attrD c "hash".data)) := by
  induction l with
  | nil => rfl
  | cons c rest ih =>
    simp only [List.map_cons, List.nodup_cons, List.mem_map] at hnodup
    simp only [List.foldl_cons, List.map_cons]
    have h1 : setPairs [] (attrD c "id".data) (attrD c "hash".data) =
        [(attrD c "id".data, attrD c "hash".data)] := rfl
    rw [h1, foldl_setPairs_cons rest _ _ _
      (fun c' hc' heq => hnodup.1 ⟨c', hc', heq⟩)]
    rw [ih hnodup.2]

/-- With pairwise-distinct card ids, the `old_hashes` dict is the list of
(id, hash) pairs in card order. -/
theorem oldHashesDict_eq (oldRoot : XElem)
    (hnodup : ((rootCards oldRoot).map (fun c => attrD c "id".data)).Nodup) :
    oldHashesDict oldRoot =
      (rootCards oldRoot).map (fun c => (attrD c "id".data, attrD c "hash".data)) := by
  rw [oldHashesDict]
  exact foldl_setPairs_eq _ hnodup

/-- With pairwise-distinct ids, the dict lookup succeeds with value `h` exactly
when some card of the list has that id and that stored hash. -/
theorem lookupA_map_iff (l : List XElem) (x hv : List Char)
    (hnodup : (l.map (fun c => attrD c "id".data)).Nodup) :
    lookupA (l.map (fun c => (attrD c "id".data, attrD c "hash".data))) x = some hv ↔
      ∃ c ∈ l, attrD c "id".data = x ∧ attrD c "hash".data = hv := by
  induction l with
  | nil => simp [lookupA]
  | cons c rest ih =>
    simp only [List.map_cons, List.nodup_cons, List.mem_map] at hnodup
    have ihh := ih hnodup.2
    by_cases hx : (attrD c "id".data == x) = true
    · have hx' : attrD c "id".data = x := by simpa using hx
      simp only [List.map_cons, lookupA, List.find?_cons, hx, if_true]
      constructor
      · intro hsome
        exact ⟨c, List.mem_cons_self c rest, hx', by simpa using hsome⟩
      · rintro ⟨c', hc, hid, hh⟩
        rw [List.mem_cons] at hc
        rcases hc with rfl | hcr
        · simpa using hh
        · exact absurd (hid.trans hx'.symm) (fun heq => hnodup.1 ⟨c', hcr, heq⟩)
    · have hx0 : (attrD c "id".data == x) = false := by simpa using hx
      simp only [List.map_cons, lookupA, List.find?_cons, hx0, Bool.false_eq_true, if_false]
      rw [lookupA] at ihh
      rw [ihh]
      constructor
      · rintro ⟨c', hcr, hid, hh⟩
        exact ⟨c', List.mem_cons_of_mem c hcr, hid, hh⟩
      · rintro ⟨c', hc, hid, hh⟩
        rw [List.mem_cons] at hc
        rcases hc with rfl | hcr
        · exact absurd hid (by simpa using hx)
        · exact ⟨c', hcr, hid, hh⟩

/-- Claim C3: with a prior snapshot present, the card at position `k` of the new
tree is marked `skip='1'` by `calculate_hashes` exactly when the prior snapshot
contains a card with the same id whose stored hash equals the card's newly
computed fingerprint.  Hypotheses: the prior snapshot's ids are unique (the data
model guarantees ids unique within a set) and the fresh input card carries no
`skip` attribute (the tree is regenerated from the spreadsheet each run). -/
theorem c3_card_skip_iff (root oldRoot : XElem)
    (hnodup : ((rootCards oldRoot).map (fun c => attrD c "id".data)).Nodup)
    (k : Nat) (c : XElem)
    (hc : (rootCards root).get? k = some c)
    (hskip : c.getA "skip".data = none) :
    ∃ c', (rootCards (calculate_hashes root (some oldRoot)).1).get? k = some c' ∧
      (c'.getA "skip".data = some "1".data ↔
        ∃ oc ∈ rootCards oldRoot,
          attrD oc "id".data = attrD c "id".data ∧
          attrD oc "hash".data = cardFingerprint c) := by
  have hcards : rootCards (calculate_hashes root (some oldRoot)).1 =
      ((rootCards root).map hashCard).map
        (fun c => if lookupA (oldHashesDict oldRoot) (attrD c "id".data) ==
            some (attrD c "hash".data) then c.setA "skip".data "1".data else c) := by
    simp only [calculate_hashes]
    rw [rootCards_mapCards, apply_ite rootCards, rootCards_setA, ite_self,
      rootCards_setA, rootCards_mapCards]
  rw [hcards, List.map_map, List.get?_map, hc]
  refine ⟨_, rfl, ?_⟩
  simp only [Function.comp_apply, hashCard]
  rw [attrD_setA_other c "hash".data (cardFingerprint c) "id".data (by decide),
    attrD_setA_same]
  by_cases hcond :
      lookupA (oldHashesDict oldRoot) (attrD c "id".data) = some (cardFingerprint c)
  · rw [if_pos (beq_iff_eq.mpr hcond)]
    refine iff_of_true (getA_setA_same _ _ _) ?_
    rw [oldHashesDict_eq oldRoot hnodup] at hcond
    exact (lookupA_map_iff _ _ _ hnodup).mp hcond
  · rw [if_neg (by simpa using beq_eq_false_iff_ne.mpr hcond)]
    refine iff_of_false ?_ ?_
    · rw [getA_setA_other c "hash".data (cardFingerprint c) "skip".data (by decide),
        hskip]
      simp
    · rintro ⟨oc, hoc, hid2, hh2⟩
      refine hcond ?_
      rw [oldHashesDict_eq oldRoot hnodup]
      exact (lookupA_map_iff _ _ _ hnodup).mpr ⟨oc, hoc, hid2, hh2⟩

/-- Claim C4: the set root is marked `skip='1'` exactly when a prior snapshot was
given and its stored set-level fingerprint equals the newly computed one; on a cold
start (no prior snapshot) the returned old hash is the empty string and neither the
root nor any card carries a skip mark.  Hypotheses: the fresh input tree carries no
skip attributes (it is regenerated from the spreadsheet each run). -/
theorem c4_set_skip_cold_start (root : XElem) (old : Option XElem)
    (hroot : root.getA "skip".data = none)
    (hcards : ∀ c ∈ rootCards root, c.getA "skip".data = none) :
    ((calculate_hashes root old).1.getA "skip".data = some "1".data ↔
      ∃ o, old = some o ∧ attrD o "hash".data = (calculate_hashes root old).2.1) ∧
    (old = none →
      (calculate_hashes root old).2.2 = [] ∧
      (calculate_hashes root old).1.getA "skip".data = none ∧
      ∀ c ∈ rootCards (calculate_hashes root old).1, c.getA "skip".data = none) := by
  cases old with
  | none =>
    simp only [calculate_hashes]
    constructor
    · rw [getA_setA_other _ _ _ _ (by decide), mapCards_getA, hroot]
      simp
    · intro _
      refine ⟨by trivial, ?_, ?_⟩
      · rw [getA_setA_other _ _ _ _ (by decide), mapCards_getA, hroot]
      · intro c hcmem
        rw [rootCards_setA, rootCards_mapCards] at hcmem
        obtain ⟨c₀, hc₀, rfl⟩ := List.mem_map.mp hcmem
        rw [hashCard, getA_setA_other _ _ _ _ (by decide)]
        exact hcards c₀ hc₀
  | some o =>
    simp only [calculate_hashes]
    constructor
    · rw [mapCards_getA]
      by_cases hbeq : (attrD o "hash".data ==
          canonicalSer (mapCards hashCard root)) = true
      · rw [if_pos hbeq, getA_setA_same]
        exact iff_of_true rfl ⟨o, rfl, by simpa using hbeq⟩
      · rw [if_neg hbeq, getA_setA_other _ _ _ _ (by decide), mapCards_getA, hroot]
        refine iff_of_false (by simp) ?_
        rintro ⟨o', ho', hh⟩
        rw [Option.some_inj] at ho'
        subst ho'
        exact hbeq (beq_iff_eq.mpr hh)
    · intro hcontra
      exact absurd hcontra (by simp)

/-- Claim C3, witness: a one-card set whose prior snapshot stores a stale hash for
the same id; the theorem instance decides the card's skip mark. -/
theorem c3_witness :
    ∃ c', (rootCards (calculate_hashes
        (XElem.mk "set".data [] []
          (.cons (XElem.mk "cards".data [] []
            (.cons (XElem.mk "card".data [("id".data, "c1".data)] [] .nil []) .nil)
            []) .nil) [])
        (some (XElem.mk "set".data [("hash".data, "H0".data)] []
          (.cons (XElem.mk "cards".data [] []
            (.cons (XElem.mk "card".data
              [("id".data, "c1".data), ("hash".data, "h0".data)] [] .nil []) .nil)
            []) .nil) []))).1).get? 0 = some c' ∧
      (c'.getA "skip".data = some "1".data ↔
        ∃ oc ∈ rootCards (XElem.mk "set".data [("hash".data, "H0".data)] []
          (.cons (XElem.mk "cards".data [] []
            (.cons (XElem.mk "card".data
              [("id".data, "c1".data), ("hash".data, "h0".data)] [] .nil []) .nil)
            []) .nil) []),
          attrD oc "id".data =
            attrD (XElem.mk "card".data [("id".data, "c1".data)] [] .nil []) "id".data ∧
          attrD oc "hash".data =
            cardFingerprint (XElem.mk "card".data [("id".data, "c1".data)] [] .nil [])) :=
  c3_card_skip_iff
    (XElem.mk "set".data [] []
      (.cons (XElem.mk "cards".data [] []
        (.cons (XElem.mk "card".data [("id".data, "c1".data)] [] .nil []) .nil)
        []) .nil) [])
    (XElem.mk "set".data [("hash".data, "H0".data)] []
      (.cons (XElem.mk "cards".data [] []
        (.cons (XElem.mk "card".data
          [("id".data, "c1".data), ("hash".data, "h0".data)] [] .nil []) .nil)
        []) .nil) [])
    (by decide) 0
    (XElem.mk "card".data [("id".data, "c1".data)] [] .nil [])
    rfl rfl

/-- Claim C4, witness: the cold-start branch on a concrete one-card set. -/
theorem c4_witness :
    ((calculate_hashes
        (XElem.mk "set".data [] []
          (.cons (XElem.mk "cards".data [] []
            (.cons (XElem.mk "card".data [("id".data, "c1".data)] [] .nil []) .nil)
            []) .nil) []) none).1.getA "skip".data = some "1".data ↔
      ∃ o, (none : Option XElem) = some o ∧
        attrD o "hash".data = (calculate_hashes
          (XElem.mk "set".data [] []
            (.cons (XElem.mk "cards".data [] []
              (.cons (XElem.mk "card".data [("id".data, "c1".data)] [] .nil []) .nil)
              []) .nil) []) none).2.1) ∧
    ((none : Option XElem) = none →
      (calculate_hashes
        (XElem.mk "set".data [] []
          (.cons (XElem.mk "cards".data [] []
            (.cons (XElem.mk "card".data [("id".data, "c1".data)] [] .nil []) .nil)
            []) .nil) []) none).2.2 = [] ∧
      (calculate_hashes
        (XElem.mk "set".data [] []
          (.cons (XElem.mk "cards".data [] []
            (.cons (XElem.mk "card".data [("id".data, "c1".data)] [] .nil []) .nil)
            []) .nil) []) none).1.getA "skip".data = none ∧
      ∀ c ∈ rootCards (calculate_hashes
        (XElem.mk "set".data [] []
          (.cons (XElem.mk "cards".data [] []
            (.cons (XElem.mk "card".data [("id".data, "c1".data)] [] .nil []) .nil)
            []) .nil) []) none).1, c.getA "skip".data = none) :=
  c4_set_skip_cold_start
    (XElem.mk "set".data [] []
      (.cons (XElem.mk "cards".data [] []
        (.cons (XElem.mk "card".data [("id".data, "c1".data)] [] .nil []) .nil)
        []) .nil) [])
    none rfl (by decide)

/-- Unfolding lemma: a newline starts a deletion run. -/
theorem stripNlWs_cons_nl (l : List Char) : stripNlWs ('\n' :: l) = wsDrop l := by
  simp [stripNlWs]

/-- Unfolding lemma: a non-newline character is kept. -/
theorem stripNlWs_cons_ne (c : Char) (l : List Char) (h : ¬c = '\n') :
    stripNlWs (c :: l) = c :: stripNlWs l := by
  simp [stripNlWs, h]

/-- The deletion-run helper is the scan restarted after the whitespace run. -/
theorem wsDrop_eq (l : List Char) : wsDrop l = stripNlWs (l.dropWhile isWs) := by
  induction l with
  | nil => rfl
  | cons c rest ih =>
    by_cases h : isWs c = true
    · rw [List.dropWhile_cons_of_pos h]
      simpa [wsDrop, h] using ih
    · have hnl : ¬c = '\n' := fun hc => by subst hc; exact h rfl
      rw [List.dropWhile_cons_of_neg h]
      simp [wsDrop, h, stripNlWs, hnl]

/-- A list with a non-whitespace head (or empty) is untouched by `dropWhile`. -/
theorem dropWhile_headOk (b : List Char) (hb : headOkB b = true) :
    b.dropWhile isWs = b := by
  cases b with
  | nil => rfl
  | cons c rest =>
    simp only [headOkB, Bool.not_eq_true'] at hb
    rw [List.dropWhile_cons_of_neg (by simp [hb])]

/-- Dropping whitespace distributes over an append whose right part has a
non-whitespace head. -/
theorem dropWhile_append_headOk (a b : List Char) (hb : headOkB b = true) :
    (a ++ b).dropWhile isWs = a.dropWhile isWs ++ b := by
  induction a with
  | nil => simpa using dropWhile_headOk b hb
  | cons c rest ih =>
    by_cases h : isWs c = true
    · rw [List.cons_append, List.dropWhile_cons_of_pos h, List.dropWhile_cons_of_pos h, ih]
    · rw [List.cons_append, List.dropWhile_cons_of_neg h, List.dropWhile_cons_of_neg h,
        List.cons_append]

/-- Dropping whitespace skips over an all-whitespace prefix. -/
theorem dropWhile_append_of_all (w y : List Char) (hw : ∀ x ∈ w, isWs x = true) :
    (w ++ y).dropWhile isWs = y.dropWhile isWs := by
  induction w with
  | nil => rfl
  | cons c rest ih =>
    rw [List.cons_append, List.dropWhile_cons_of_pos (hw c (by simp))]
    exact ih (fun x hx => hw x (by simp [hx]))

/-- The regex deletion distributes over an append whose right part has a
non-whitespace head: no deletion run started in the left part can reach beyond the
right part's first character. -/
theorem stripNlWs_append : ∀ (a b : List Char), headOkB b = true →
    stripNlWs (a ++ b) = stripNlWs a ++ stripNlWs b
  | [], b, _ => by simp [stripNlWs]
  | c :: a, b, hb => by
    by_cases hc : c = '\n'
    · subst hc
      rw [List.cons_append, stripNlWs_cons_nl, stripNlWs_cons_nl, wsDrop_eq, wsDrop_eq,
        dropWhile_append_headOk a b hb]
      exact stripNlWs_append (a.dropWhile isWs) b hb
    · rw [List.cons_append, stripNlWs_cons_ne c _ hc, stripNlWs_cons_ne c _ hc,
        List.cons_append, stripNlWs_append a b hb]
termination_by a _ _ => a.length
decreasing_by
  · have := List.dropWhile_sublist (l := a) (p := isWs)
    have := this.length_le
    simp only [List.length_cons]
    omega
  · simp

/-- The regex deletion also distributes over an append whose left part ends in a
non-whitespace character. -/
theorem stripNlWs_append_last (u : List Char) (c : Char) (b : List Char)
    (hc : isWs c = false) :
    stripNlWs ((u ++ [c]) ++ b) = stripNlWs (u ++ [c]) ++ stripNlWs b := by
  have hnl : ¬c = '\n' := fun h => by subst h; simp [isWs] at hc
  have hok : headOkB (c :: b) = true := by simp [headOkB, hc]
  rw [List.append_assoc, List.singleton_append, stripNlWs_append u (c :: b) hok,
    stripNlWs_cons_ne c b hnl,
    stripNlWs_append u [c] (by simp [headOkB, hc]), stripNlWs_cons_ne c [] hnl]
  simp [stripNlWs]

/-- A whitespace-only text beginning with a newline is deleted entirely when it is
followed by a non-whitespace character. -/
theorem stripNlWs_ws_led (s r : List Char) (hw : ∀ x ∈ s, isWs x = true)
    (hr : headOkB r = true) :
    stripNlWs (('\n' :: s) ++ r) = stripNlWs r := by
  rw [List.cons_append, stripNlWs_cons_nl, wsDrop_eq, dropWhile_append_of_all s r hw,
    dropWhile_headOk r hr]

/-- Whitespace characters are untouched by text escaping. -/
theorem escTextChar_ws (c : Char) (h : isWs c = true) : escTextChar c = [c] := by
  simp only [isWs, Bool.or_eq_true, beq_iff_eq] at h
  rcases h with ((((h | h) | h) | h) | h) | h <;> subst h <;> rfl

/-- Whitespace-only texts are untouched by text escaping. -/
theorem escText_wsOnly (t : List Char) (h : ∀ x ∈ t, isWs x = true) :
    escText t = t := by
  induction t with
  | nil => rfl
  | cons c rest ih =>
    rw [escText, List.flatMap_cons, escTextChar_ws c (h c (by simp)),
      List.singleton_append]
    rw [escText] at ih
    rw [ih (fun x hx => h x (by simp [hx]))]

/-- Every serialized element ends with the closing angle bracket. -/
theorem serElem_gt (e : XElem) : ∃ u, serElem e = u ++ ['>'] := by
  cases e with
  | mk tag attrs text children tl =>
    rw [serElem]
    by_cases h : (text.isEmpty && children.isNil) = true
    · rw [if_pos h]
      exact ⟨'<' :: (tag ++ serAttrs attrs ++ [' ', '/']), by simp⟩
    · rw [if_neg h]
      refine ⟨'<' :: ((tag ++ serAttrs attrs ++ ['>']) ++
        (escText text ++ serList children ++ ('<' :: '/' :: tag))), by simp⟩

/-- Every serialized element begins with the opening angle bracket. -/
theorem serElem_lt (e : XElem) : ∃ v, serElem e = '<' :: v := by
  cases e with
  | mk tag attrs text children tl =>
    rw [serElem]
    by_cases h : (text.isEmpty && children.isNil) = true
    · rw [if_pos h]
      exact ⟨_, rfl⟩
    · rw [if_neg h]
      exact ⟨_, rfl⟩

/-- A serialized children list followed by a head-safe continuation is head-safe. -/
theorem headOkB_serList_append (l : XList) (r : List Char) (hr : headOkB r = true) :
    headOkB (serList l ++ r) = true := by
  cases l with
  | nil => simpa [serList]
  | cons c cs =>
    obtain ⟨v, hv⟩ := serElem_lt c
    rw [serList, hv]
    simp [headOkB, isWs]

/-- The children lists of related elements are empty together. -/
theorem wsRelList_isNil (l₁ l₂ : XList) (h : wsRelList l₁ l₂ = true) :
    l₁.isNil = l₂.isNil := by
  cases l₁ <;> cases l₂ <;> simp_all [wsRelList, XList.isNil]

/-- Case analysis for the amended text-node relation. -/
theorem textEqOrNl_cases (t₁ t₂ : List Char) (h : textEqOrNl t₁ t₂ = true) :
    t₁ = t₂ ∨ ((∀ x ∈ t₁, isWs x = true) ∧ (∀ x ∈ t₂, isWs x = true) ∧
      (∃ s₁, t₁ = '\n' :: s₁) ∧ (∃ s₂, t₂ = '\n' :: s₂)) := by
  simp only [textEqOrNl, Bool.or_eq_true, Bool.and_eq_true, beq_iff_eq] at h
  rcases h with h | ⟨⟨⟨hw₁, hw₂⟩, hh₁⟩, hh₂⟩
  · exact Or.inl h
  · right
    cases t₁ with
    | nil => simp [List.headD] at hh₁
    | cons c₁ s₁ =>
      cases t₂ with
      | nil => simp [List.headD] at hh₂
      | cons c₂ s₂ =>
        simp only [List.headD_cons] at hh₁ hh₂
        subst hh₁
        subst hh₂
        simp only [wsOnly, List.all_eq_true] at hw₁ hw₂
        exact ⟨fun x hx => hw₁ x hx, fun x hx => hw₂ x hx, ⟨s₁, rfl⟩, ⟨s₂, rfl⟩⟩

/-- Component extraction for the amended relation. -/
theorem wsRel_parts (tag₁ attrs₁ text₁ ch₁ tl₁ tag₂ attrs₂ text₂ ch₂ tl₂)
    (h : wsRel (.mk tag₁ attrs₁ text₁ ch₁ tl₁) (.mk tag₂ attrs₂ text₂ ch₂ tl₂) = true) :
    tag₁ = tag₂ ∧ attrs₁ = attrs₂ ∧ textEqOrNl text₁ text₂ = true ∧
      textEqOrNl tl₁ tl₂ = true ∧ wsRelList ch₁ ch₂ = true := by
  simp only [wsRel, Bool.and_eq_true, beq_iff_eq] at h
  exact ⟨h.1.1.1.1, h.1.1.1.2, h.1.1.2, h.1.2, h.2⟩

/-- Tail-node relation of related elements. -/
theorem wsRel_tail (c₁ c₂ : XElem) (h : wsRel c₁ c₂ = true) :
    textEqOrNl c₁.tailOf c₂.tailOf = true := by
  cases c₁ with
  | mk tag₁ attrs₁ text₁ ch₁ tl₁ =>
    cases c₂ with
    | mk tag₂ attrs₂ text₂ ch₂ tl₂ =>
      exact (wsRel_parts tag₁ attrs₁ text₁ ch₁ tl₁ tag₂ attrs₂ text₂ ch₂ tl₂ h).2.2.2.1

mutual

/-- Core congruence: related elements have the same canonicalized serialization
(before end-stripping).  The only differences between the two serializations are
whitespace-only, newline-led text and tail nodes, and each of these is deleted
entirely by the regex because the character that follows it is a non-whitespace
`<`. -/
theorem stripNlWs_serElem_congr : ∀ (e₁ e₂ : XElem), wsRel e₁ e₂ = true →
    stripNlWs (serElem e₁) = stripNlWs (serElem e₂)
  | .mk tag₁ attrs₁ text₁ ch₁ tl₁, .mk tag₂ attrs₂ text₂ ch₂ tl₂, h => by
    obtain ⟨htag, hattrs, htext, htl, hch⟩ :=
      wsRel_parts tag₁ attrs₁ text₁ ch₁ tl₁ tag₂ attrs₂ text₂ ch₂ tl₂ h
    subst htag
    subst hattrs
    have hnil := wsRelList_isNil ch₁ ch₂ hch
    have hclose_ok : headOkB ('<' :: '/' :: (tag₁ ++ ['>'])) = true := by
      simp [headOkB, isWs]
    rcases textEqOrNl_cases text₁ text₂ htext with hxx | ⟨hw₁, hw₂, ⟨s₁,ht₁⟩, ⟨s₂, ht₂⟩⟩
    · subst hxx
      by_cases hshort : (text₁.isEmpty && ch₁.isNil) = true
      · rw [serElem, serElem, if_pos hshort, if_pos (by rw [← hnil]; exact hshort)]
    
      · rw [serElem, serElem, if_neg hshort,
          if_neg (show ¬(text₁.isEmpty && ch₂.isNil) = true by rw [← hnil]; exact hshort)]
        have hre : ∀ (ch : XList),
            ('<' :: (tag₁ ++ serAttrs attrs₁ ++ ['>'])) ++
              (escText text₁ ++ serList ch ++ ('<' :: '/' :: (tag₁ ++ ['>']))) =
            (('<' :: (tag₁ ++ serAttrs attrs₁ ++ ['>'])) ++ escText text₁) ++
              (serList ch ++ ('<' :: '/' :: (tag₁ ++ ['>']))) := by
          intro ch
          simp [List.append_assoc]
        rw [hre ch₁, hre ch₂,
          stripNlWs_append _ _ (headOkB_serList_append ch₁ _ hclose_ok),
          stripNlWs_append _ _ (headOkB_serList_append ch₂ _ hclose_ok),
          stripNlWs_serList_congr ch₁ ch₂ ('<' :: '/' :: (tag₁ ++ ['>'])) hch hclose_ok]
    · subst ht₁
      subst ht₂
      have hs₁ : ∀ x ∈ s₁, isWs x = true := fun x hx => hw₁ x (List.mem_cons_of_mem _ hx)
      have hs₂ : ∀ x ∈ s₂, isWs x = true := fun x hx => hw₂ x (List.mem_cons_of_mem _ hx)
      have hlong₁ : ¬((('\n' :: s₁ : List Char).isEmpty && ch₁.isNil) = true) := by simp
      have hlong₂ : ¬((('\n' :: s₂ : List Char).isEmpty && ch₂.isNil) = true) := by simp
      rw [serElem, serElem, if_neg hlong₁, if_neg hlong₂]
      have hre : ∀ (s : List Char) (ch : XList), (∀ x ∈ '\n' :: s, isWs x = true) →
          ('<' :: (tag₁ ++ serAttrs attrs₁ ++ ['>'])) ++
            (escText ('\n' :: s) ++ serList ch ++ ('<' :: '/' :: (tag₁ ++ ['>']))) =
          (('<' :: (tag₁ ++ serAttrs attrs₁)) ++ ['>']) ++
            (('\n' :: s) ++ (serList ch ++ ('<' :: '/' :: (tag₁ ++ ['>'])))) := by
        intro s ch hs
        rw [escText_wsOnly _ hs]
        simp [List.append_assoc]
      rw [hre s₁ ch₁ hw₁, hre s₂ ch₂ hw₂,
        stripNlWs_append_last _ '>' _ (by simp [isWs]),
        stripNlWs_append_last _ '>' _ (by simp [isWs]),
        stripNlWs_ws_led s₁ _ hs₁ (headOkB_serList_append ch₁ _ hclose_ok),
        stripNlWs_ws_led s₂ _ hs₂ (headOkB_serList_append ch₂ _ hclose_ok),
        stripNlWs_serList_congr ch₁ ch₂ ('<' :: '/' :: (tag₁ ++ ['>'])) hch hclose_ok]

/-- Core congruence for children lists followed by a head-safe continuation. -/
theorem stripNlWs_serList_congr : ∀ (l₁ l₂ : XList) (r : List Char),
    wsRelList l₁ l₂ = true → headOkB r = true →
    stripNlWs (serList l₁ ++ r) = stripNlWs (serList l₂ ++ r)
  | .nil, .nil, r, _, _ => rfl
  | .nil, .cons _ _, r, h, _ => by simp [wsRelList] at h
  | .cons _ _, .nil, r, h, _ => by simp [wsRelList] at h
  | .cons c₁ cs₁, .cons c₂ cs₂, r, h, hr => by
    have hc : wsRel c₁ c₂ = true ∧ wsRelList cs₁ cs₂ = true := by
      simpa [wsRelList, Bool.and_eq_true] using h
    obtain ⟨u₁, hu₁⟩ := serElem_gt c₁
    obtain ⟨u₂, hu₂⟩ := serElem_gt c₂
    have hgtok : headOkB ['>'] = true := by simp [headOkB, isWs]
    have hgt : stripNlWs ['>'] = ['>'] := by
      rw [stripNlWs_cons_ne '>' [] (by decide)]
      rfl
    have hL1 := stripNlWs_serElem_congr c₁ c₂ hc.1
    rw [hu₁, hu₂, stripNlWs_append u₁ ['>'] hgtok, stripNlWs_append u₂ ['>'] hgtok,
      hgt] at hL1
    have hu : stripNlWs u₁ = stripNlWs u₂ := List.append_cancel_right hL1
    have hre : ∀ (u : List Char) (c : XElem) (cs : XList),
        serElem c = u ++ ['>'] →
        serList (.cons c cs) ++ r =
          (u ++ ['>']) ++ (escText c.tailOf ++ (serList cs ++ r)) := by
      intro u c cs huc
      rw [serList, huc]
      simp [List.append_assoc]
    rw [hre u₁ c₁ cs₁ hu₁, hre u₂ c₂ cs₂ hu₂,
      stripNlWs_append_last u₁ '>' _ (by simp [isWs]),
      stripNlWs_append_last u₂ '>' _ (by simp [isWs]),
      stripNlWs_append u₁ ['>'] hgtok, stripNlWs_append u₂ ['>'] hgtok, hgt, hu]
    have hXok₁ : headOkB (serList cs₁ ++ r) = true := headOkB_serList_append cs₁ r hr
    have hXok₂ : headOkB (serList cs₂ ++ r) = true := headOkB_serList_append cs₂ r hr
    rcases textEqOrNl_cases c₁.tailOf c₂.tailOf (wsRel_tail c₁ c₂ hc.1) with
      htt | ⟨hw₁, hw₂, ⟨s₁, ht₁⟩, ⟨s₂, ht₂⟩⟩
    · rw [htt, stripNlWs_append _ _ hXok₁, stripNlWs_append _ _ hXok₂,
        stripNlWs_serList_congr cs₁ cs₂ r hc.2 hr]
    · rw [ht₁, ht₂, escText_wsOnly _ (ht₁ ▸ hw₁), escText_wsOnly _ (ht₂ ▸ hw₂),
        stripNlWs_ws_led s₁ _ (fun x hx => (ht₁ ▸ hw₁) x (List.mem_cons_of_mem _ hx)) hXok₁,
        stripNlWs_ws_led s₂ _ (fun x hx => (ht₂ ▸ hw₂) x (List.mem_cons_of_mem _ hx)) hXok₂,
        stripNlWs_serList_congr cs₁ cs₂ r hc.2 hr]

end

/-- Stripping from the left is a no-op on a serialized element. -/
theorem pyStrip_serElem (e : XElem) (x : List Char) :
    pyStrip (serElem e ++ x) = ((serElem e ++ x).reverse.dropWhile isWs).reverse := by
  obtain ⟨v, hv⟩ := serElem_lt e
  rw [pyStrip, hv, List.cons_append,
    List.dropWhile_cons_of_neg (by simp [isWs]), ← List.cons_append, ← hv]

/-- Right-stripping after an interior non-whitespace character keeps everything up
to that character. -/
theorem rstrip_append_last (a : List Char) (c : Char) (v : List Char)
    (hc : isWs c = false) :
    (((a ++ [c]) ++ v).reverse.dropWhile isWs).reverse =
      (a ++ [c]) ++ (v.reverse.dropWhile isWs).reverse := by
  rw [List.reverse_append, List.reverse_append, List.reverse_singleton,
    List.singleton_append,
    dropWhile_append_headOk v.reverse (c :: a.reverse) (by simp [headOkB, hc]),
    List.reverse_append, List.reverse_cons, List.reverse_reverse, List.append_assoc]

/-- Right-stripping removes a whitespace-only suffix entirely. -/
theorem rstrip_append_ws (a w : List Char) (hw : ∀ x ∈ w, isWs x = true) :
    ((a ++ w).reverse.dropWhile isWs).reverse = (a.reverse.dropWhile isWs).reverse := by
  rw [List.reverse_append, dropWhile_append_of_all w.reverse a.reverse
    (fun x hx => hw x (List.mem_reverse.mp hx))]

/-- Right-stripping is a no-op on a list ending in a non-whitespace character. -/
theorem rstrip_of_last (a : List Char) (c : Char) (hc : isWs c = false) :
    ((a ++ [c]).reverse.dropWhile isWs).reverse = a ++ [c] := by
  rw [List.reverse_append, List.reverse_singleton, List.singleton_append,
    List.dropWhile_cons_of_neg (by simp [hc]), List.reverse_cons, List.reverse_reverse]

/-- Claim C1, amended: two attribute trees with the same tags, attributes and
attribute values, whose text and tail nodes are either equal or are, on both
sides, whitespace-only nodes beginning with a newline (the shape produced by
pretty-printing), have byte-identical canonical serializations and therefore equal
fingerprints. -/
theorem c1_canonical_ws_newline (e₁ e₂ : XElem) (h : wsRel e₁ e₂ = true) :
    canonicalSer e₁ = canonicalSer e₂ ∧ cardFingerprint e₁ = cardFingerprint e₂ := by
  have hL1 := stripNlWs_serElem_congr e₁ e₂ h
  obtain ⟨u₁, hu₁⟩ := serElem_gt e₁
  obtain ⟨u₂, hu₂⟩ := serElem_gt e₂
  have hgtok : headOkB ['>'] = true := by simp [headOkB, isWs]
  have hgt : stripNlWs ['>'] = ['>'] := by
    rw [stripNlWs_cons_ne '>' [] (by decide)]
    rfl
  have hgtw : isWs '>' = false := by decide
  have hL1' := hL1
  rw [hu₁, hu₂, stripNlWs_append u₁ ['>'] hgtok, stripNlWs_append u₂ ['>'] hgtok,
    hgt] at hL1'
  have hu : stripNlWs u₁ = stripNlWs u₂ := List.append_cancel_right hL1'
  suffices hcan : canonicalSer e₁ = canonicalSer e₂ from ⟨hcan, hcan⟩
  rw [canonicalSer, canonicalSer, xmlToString, xmlToString, pyStrip_serElem,
    pyStrip_serElem]
  rcases textEqOrNl_cases e₁.tailOf e₂.tailOf (wsRel_tail e₁ e₂ h) with
    htt | ⟨hw₁, hw₂, ⟨s₁, ht₁⟩, ⟨s₂, ht₂⟩⟩
  · rw [htt, hu₁, hu₂, rstrip_append_last u₁ '>' _ hgtw, rstrip_append_last u₂ '>' _ hgtw,
      stripNlWs_append_last u₁ '>' _ hgtw, stripNlWs_append_last u₂ '>' _ hgtw,
      stripNlWs_append u₁ ['>'] hgtok, stripNlWs_append u₂ ['>'] hgtok, hgt, hu]
  · rw [ht₁, ht₂, escText_wsOnly _ (ht₁ ▸ hw₁), escText_wsOnly _ (ht₂ ▸ hw₂),
      rstrip_append_ws (serElem e₁) _ (ht₁ ▸ hw₁), rstrip_append_ws (serElem e₂) _ (ht₂ ▸ hw₂),
      hu₁, hu₂, rstrip_of_last u₁ '>' hgtw, rstrip_of_last u₂ '>' hgtw,
      stripNlWs_append u₁ ['>'] hgtok, stripNlWs_append u₂ ['>'] hgtok, hu]

set_option maxRecDepth 10000 in
/-- Claim C1, counterexample to the claim as stated: two cards with the same
attributes that differ only in a whitespace-only text node (absent versus a single
space).  The space contains no newline, so `re.sub(r'\n\s*', '')` does not remove
it, and the short form `<card id="1" />` differs from the long form
`<card id="1"> </card>`: the canonical serializations and hence the fingerprints
differ. -/
theorem c1_counterexample :
    claimRel (XElem.mk "card".data [("id".data, "1".data)] [] .nil [])
        (XElem.mk "card".data [("id".data, "1".data)] " ".data .nil []) = true ∧
    canonicalSer (XElem.mk "card".data [("id".data, "1".data)] [] .nil []) ≠
      canonicalSer (XElem.mk "card".data [("id".data, "1".data)] " ".data .nil []) ∧
    cardFingerprint (XElem.mk "card".data [("id".data, "1".data)] [] .nil []) ≠
      cardFingerprint (XElem.mk "card".data [("id".data, "1".data)] " ".data .nil []) := by
  refine ⟨by decide, ?_, ?_⟩ <;> decide

set_option maxRecDepth 10000 in
/-- Claim C1, witness: two cards differing only in pretty-printed, newline-led
whitespace text, with equal canonical serializations by the amended theorem. -/
theorem c1_witness :
    wsRel
        (XElem.mk "card".data [("id".data, "1".data)] "\n  ".data
          (.cons (XElem.mk "property".data [("name".data, "T".data)] [] .nil "\n".data)
            .nil) "\n".data)
        (XElem.mk "card".data [("id".data, "1".data)] "\n\t".data
          (.cons (XElem.mk "property".data [("name".data, "T".data)] [] .nil "\n  ".data)
            .nil) "\n ".data) = true ∧
    canonicalSer
        (XElem.mk "card".data [("id".data, "1".data)] "\n  ".data
          (.cons (XElem.mk "property".data [("name".data, "T".data)] [] .nil "\n".data)
            .nil) "\n".data) =
      canonicalSer
        (XElem.mk "card".data [("id".data, "1".data)] "\n\t".data
          (.cons (XElem.mk "property".data [("name".data, "T".data)] [] .nil "\n  ".data)
            .nil) "\n ".data) :=
  ⟨by decide,
   (c1_canonical_ws_newline
      (XElem.mk "card".data [("id".data, "1".data)] "\n  ".data
        (.cons (XElem.mk "property".data [("name".data, "T".data)] [] .nil "\n".data)
          .nil) "\n".data)
      (XElem.mk "card".data [("id".data, "1".data)] "\n\t".data
        (.cons (XElem.mk "property".data [("name".data, "T".data)] [] .nil "\n  ".data)
          .nil) "\n ".data)
      (by decide)).1⟩
